import Mathlib

/-!
Verification development for the trading-charts repository.

The repository's analytical core and lifecycle logic are embedded shallowly:

* `swingAnalysis.ts` — swing-point detection and HH/LH/HL/LL classification;
* `volumeProfileProcessor.ts` — trade aggregation into price-level bins,
  point of control, and value area;
* `TimeframeChart` — per-panel lifecycle (load / retry / destroy) modelled as
  a state-plus-event-trace machine over explicit fetch outcomes;
* `ChartManager` — registry with transactional chart creation and id-sequence
  recovery from a saved layout.

JS numbers are modelled as exact rationals (`ℚ`); machine indices as `ℕ`/`ℤ`
with the same truncation behaviour as the source where it matters.  Fallible
code returns `Except`/`Option`.  DOM and network side effects are made
observable as explicit event traces.
-/

set_option linter.unusedVariables false

/-! ### Swing analysis (`swingAnalysis.ts`) -/

/-- One candlestick (`CandlestickData`): `time` plus OHLC prices as exact
rationals in place of JS floats.  `open` is a Lean keyword, hence
`openPrice`. -/
structure Candle where
  time : ℚ
  openPrice : ℚ
  high : ℚ
  low : ℚ
  close : ℚ
deriving DecidableEq, Repr

/-- Default candle used for the (never exercised) out-of-bounds reads of the
total `List.getD` accessor. -/
def dfltCandle : Candle := ⟨0, 0, 0, 0, 0⟩

/-- `isSwingHigh(data, index, lookback)`: the candle's high strictly exceeds
every other high in the window `[index − lookback, index + lookback]`.  The
source returns `false` when the window does not fit
(`index < lookback || index >= data.length - lookback`); natural subtraction
reproduces the JS comparison because the guard fires exactly when the JS
right-hand side is `≤ index`. -/
def isSwingHigh (data : List Candle) (index lookback : ℕ) : Bool :=
  if index < lookback ∨ data.length - lookback ≤ index then false
  else
    let currentHigh := (data.getD index dfltCandle).high
    (List.range' (index - lookback) (2 * lookback + 1)).all fun i =>
      decide (i = index ∨ (data.getD i dfltCandle).high < currentHigh)

/-- `isSwingLow(data, index, lookback)`: symmetric to `isSwingHigh` using lows
and `≤` (the source rejects the candle when some other low is `≤` it). -/
def isSwingLow (data : List Candle) (index lookback : ℕ) : Bool :=
  if index < lookback ∨ data.length - lookback ≤ index then false
  else
    let currentLow := (data.getD index dfltCandle).low
    (List.range' (index - lookback) (2 * lookback + 1)).all fun i =>
      decide (i = index ∨ currentLow < (data.getD i dfltCandle).low)

/-- Swing-point classification labels. -/
inductive SwingType where
  | HH
  | LH
  | HL
  | LL
deriving DecidableEq, Repr

/-- `SwingPoint` as produced by `detectSwingPoints`. -/
structure SwingPoint where
  price : ℚ
  timestamp : ℚ
  type : SwingType
  index : ℕ
  isHigh : Bool
deriving DecidableEq, Repr

/-- Scan state of the `detectSwingPoints` loop: the previous swing high/low
(price and index) and the accumulated points. -/
structure SwingScanState where
  previousSwingHigh : Option (ℚ × ℕ)
  previousSwingLow : Option (ℚ × ℕ)
  points : List SwingPoint
deriving Repr

/-- One iteration of the `detectSwingPoints` loop at index `i`: push and
classify a swing high if present, then a swing low if present. -/
def swingStep (data : List Candle) (lookback : ℕ)
    (st : SwingScanState) (i : ℕ) : SwingScanState :=
  let st1 :=
    if isSwingHigh data i lookback then
      let currentPrice := (data.getD i dfltCandle).high
      let swingType : SwingType :=
        match st.previousSwingHigh with
        | none => .HH
        | some prev => if prev.1 < currentPrice then .HH else .LH
      { st with
        points := st.points ++
          [⟨currentPrice, (data.getD i dfltCandle).time, swingType, i, true⟩],
        previousSwingHigh := some (currentPrice, i) }
    else st
  if isSwingLow data i lookback then
    let currentPrice := (data.getD i dfltCandle).low
    let swingType : SwingType :=
      match st1.previousSwingLow with
      | none => .HL
      | some prev => if prev.1 < currentPrice then .HL else .LL
    { st1 with
      points := st1.points ++
        [⟨currentPrice, (data.getD i dfltCandle).time, swingType, i, false⟩],
      previousSwingLow := some (currentPrice, i) }
  else st1

/-- The detection loop of `detectSwingPoints` before sorting/deduplication:
indices run from `startIndex = max(lookback, length − analyzePeriod)` up to
(excluding) `length − lookback`, in order. -/
def detectSwingPointsCore (data : List Candle) (lookback analyzePeriod : ℕ) :
    List SwingPoint :=
  let startIndex := max lookback (data.length - analyzePeriod)
  ((List.range' startIndex (data.length - lookback - startIndex)).foldl
    (swingStep data lookback) ⟨none, none, []⟩).points

/-- Insertion of `x` (an element originally to the LEFT of the already
sorted `l`) before the first element `y` with `le x y`; this keeps the
original order of equal keys, modelling the (stable) JS
`Array.prototype.sort`. -/
def insSortIns (le : α → α → Bool) (x : α) : List α → List α
  | [] => [x]
  | y :: ys => if le x y then x :: y :: ys else y :: insSortIns le x ys

/-- Stable sort by `le`; on a consistent numeric comparator this is the unique
stable sort, hence the JS result. -/
def insSortBy (le : α → α → Bool) : List α → List α
  | [] => []
  | x :: xs => insSortIns le x (insSortBy le xs)

/-- The duplicate-timestamp removal pass of `detectSwingPoints`: keep the
first point for each timestamp (`seen` is the `seenTimes` set). -/
def dedupByTimestamp : List SwingPoint → List ℚ → List SwingPoint
  | [], _ => []
  | p :: rest, seen =>
    if p.timestamp ∈ seen then dedupByTimestamp rest seen
    else p :: dedupByTimestamp rest (p.timestamp :: seen)

/-- `detectSwingPoints(data, lookback, analyzePeriod)`: detection loop, stable
sort by `index` (ascending), then duplicate-timestamp removal. -/
def detectSwingPoints (data : List Candle) (lookback analyzePeriod : ℕ) :
    List SwingPoint :=
  dedupByTimestamp
    (insSortBy (fun a b => decide (a.index ≤ b.index))
      (detectSwingPointsCore data lookback analyzePeriod)) []

/-- The swing-high classification chain: given the previous swing high's price
(`none` before the first), the head must be `HH` when there is no previous
one, and otherwise `HH` exactly when strictly higher than the previous,
else `LH`; the chain then continues with this point as the new previous. -/
def chainHigh : Option ℚ → List SwingPoint → Prop
  | _, [] => True
  | none, p :: rest => p.type = .HH ∧ chainHigh (some p.price) rest
  | some prev, p :: rest =>
      (p.type = if prev < p.price then SwingType.HH else SwingType.LH) ∧
        chainHigh (some p.price) rest

/-- The swing-low classification chain, symmetric to `chainHigh` with
`HL`/`LL`. -/
def chainLow : Option ℚ → List SwingPoint → Prop
  | _, [] => True
  | none, p :: rest => p.type = .HL ∧ chainLow (some p.price) rest
  | some prev, p :: rest =>
      (p.type = if prev < p.price then SwingType.HL else SwingType.LL) ∧
        chainLow (some p.price) rest

/-! ### Volume profile (`volumeProfileProcessor.ts`) -/

/-- One raw trade print (`TradeData`).  `tradeTime` is modelled as the numeric
epoch-millisecond value; the source also accepts ISO strings and converts
them to this number via `Date` before any use. -/
structure TradeData where
  price : ℚ
  volume : ℚ
  tradeTime : ℚ
  side : String
  isMaker : Bool
deriving DecidableEq, Repr

/-- Optional price range of `VolumeProfileConfig`. -/
structure PriceRange where
  min : ℚ
  max : ℚ
deriving DecidableEq, Repr

/-- `VolumeProfileConfig`: all fields optional. -/
structure VolumeProfileConfig where
  priceRange : Option PriceRange := none
  numPriceLevels : Option ℕ := none
  tickSize : Option ℚ := none
deriving Repr

/-- Accumulated per-bin quantities (`PriceLevelVolume`). -/
structure PriceLevelVolume where
  price : ℚ
  totalVolume : ℚ
  buyVolume : ℚ
  sellVolume : ℚ
  makerVolume : ℚ
  takerVolume : ℚ
  tradeCount : ℕ
deriving DecidableEq, Repr

/-- A fresh all-zero bin at `price`, as built by the initialisation loop. -/
def emptyLevel (price : ℚ) : PriceLevelVolume := ⟨price, 0, 0, 0, 0, 0, 0⟩

/-- Lookup in the insertion-ordered JS `Map` (modelled as an association
list): value of the first entry with the given key. -/
def mapGet (m : List (ℚ × PriceLevelVolume)) (k : ℚ) : Option PriceLevelVolume :=
  match m.find? (fun e => decide (e.1 = k)) with
  | some e => some e.2
  | none => none

/-- `Map.set`: update the existing entry in place, else append. -/
def mapSet : List (ℚ × PriceLevelVolume) → ℚ → PriceLevelVolume →
    List (ℚ × PriceLevelVolume)
  | [], k, v => [(k, v)]
  | e :: rest, k, v => if e.1 = k then (k, v) :: rest else e :: mapSet rest k v

/-- `Math.round` on exact rationals: round half up, `⌊x + 1/2⌋`. -/
def jsRound (x : ℚ) : ℤ := ⌊x + 1 / 2⌋

/-- The level-initialisation loop of `aggregateVolumeByPrice`:
`for (i = 0; i <= numLevels; i++) map.set(min + i*tick, empty)`.  A negative
bound runs zero iterations, as in JS. -/
def initLevels (minPrice tickSize : ℚ) (numLevels : ℤ) :
    List (ℚ × PriceLevelVolume) :=
  if numLevels < 0 then []
  else
    (List.range (numLevels.toNat + 1)).foldl
      (fun m i =>
        mapSet m (minPrice + (i : ℚ) * tickSize)
          (emptyLevel (minPrice + (i : ℚ) * tickSize))) []

/-- One trade of the aggregation loop: compute the nearest level key by
rounding; if `map.get` misses (index outside the initialised grid) the trade
is silently dropped, otherwise all six accumulators update. -/
def applyTrade (minPrice tickSize : ℚ) (m : List (ℚ × PriceLevelVolume))
    (trade : TradeData) : List (ℚ × PriceLevelVolume) :=
  let levelIndex : ℤ := jsRound ((trade.price - minPrice) / tickSize)
  let priceLevel := minPrice + (levelIndex : ℚ) * tickSize
  match mapGet m priceLevel with
  | none => m
  | some level =>
    let level1 := { level with
      totalVolume := level.totalVolume + trade.volume,
      tradeCount := level.tradeCount + 1 }
    let level2 :=
      if trade.side.toLower == "buy" then
        { level1 with buyVolume := level1.buyVolume + trade.volume }
      else
        { level1 with sellVolume := level1.sellVolume + trade.volume }
    let level3 :=
      if trade.isMaker then
        { level2 with makerVolume := level2.makerVolume + trade.volume }
      else
        { level2 with takerVolume := level2.takerVolume + trade.volume }
    mapSet m priceLevel level3

/-- `aggregateVolumeByPrice(trades, min, max, tickSize)`: initialise the grid,
fold all trades in, then keep only bins with strictly positive total volume.
The `tickSize = 0` case (a division by zero, NaN in JS) is outside the model;
all theorems below assume or use a nonzero tick. -/
def aggregateVolumeByPrice (trades : List TradeData)
    (minPrice maxPrice tickSize : ℚ) : List PriceLevelVolume :=
  let numLevels : ℤ := ⌈(maxPrice - minPrice) / tickSize⌉
  let initial := initLevels minPrice tickSize numLevels
  let final := trades.foldl (applyTrade minPrice tickSize) initial
  (final.map Prod.snd).filter fun level => decide (0 < level.totalVolume)

/-- An output histogram entry (`VolumeProfileDataPoint`). -/
structure VolumeProfileDataPoint where
  price : ℚ
  vol : ℚ
  buyVol : ℚ
  sellVol : ℚ
deriving DecidableEq, Repr

/-- `VolumeProfileData`: chart time (epoch seconds), sorted profile, width. -/
structure VolumeProfileData where
  time : ℤ
  profile : List VolumeProfileDataPoint
  width : ℚ
deriving DecidableEq, Repr

/-- `convertToChartTime`: milliseconds to whole seconds, `Math.floor`. -/
def convertToChartTime (timestamp : ℚ) : ℤ := ⌊timestamp / 1000⌋

/-- Minimum of a price list (`Math.min(...prices)`); only ever applied to
nonempty lists in the source. -/
def listMin : List ℚ → ℚ
  | [] => 0
  | p :: ps => ps.foldl min p

/-- Maximum of a price list (`Math.max(...prices)`). -/
def listMax : List ℚ → ℚ
  | [] => 0
  | p :: ps => ps.foldl max p

/-- `processTradeData(trades, config)`: throws exactly on an empty trade
array; otherwise sorts by time, derives the price range and tick size
(`numPriceLevels || 50` and `tickSize || …` treat `0` as absent, like the JS
`||`), aggregates, and returns the price-sorted profile with the first
trade's chart time. -/
def processTradeData (trades : List TradeData) (config : VolumeProfileConfig) :
    Except String VolumeProfileData :=
  match trades with
  | [] => .error "Trade data array is empty"
  | t0 :: rest =>
    let sortedTrades :=
      insSortBy (fun a b => decide (a.tradeTime ≤ b.tradeTime)) (t0 :: rest)
    let prices := sortedTrades.map (·.price)
    let minPrice := match config.priceRange with
      | some r => r.min
      | none => listMin prices
    let maxPrice := match config.priceRange with
      | some r => r.max
      | none => listMax prices
    let numLevels : ℕ := match config.numPriceLevels with
      | some n => if n = 0 then 50 else n
      | none => 50
    let tickSize : ℚ := match config.tickSize with
      | some t => if t = 0 then (maxPrice - minPrice) / (numLevels : ℚ) else t
      | none => (maxPrice - minPrice) / (numLevels : ℚ)
    let priceLevels := aggregateVolumeByPrice sortedTrades minPrice maxPrice tickSize
    let profile := priceLevels.map fun level =>
      VolumeProfileDataPoint.mk level.price level.totalVolume level.buyVolume
        level.sellVolume
    let profileSorted := insSortBy (fun a b => decide (a.price ≤ b.price)) profile
    let firstTradeTime := (sortedTrades.headD t0).tradeTime
    .ok ⟨convertToChartTime firstTradeTime, profileSorted, 10⟩

/-- State of the `groupByTimeWindow` loop. -/
structure GroupSt where
  windows : List (List TradeData)
  currentWindow : List TradeData
  windowStartTime : ℚ

/-- `groupByTimeWindow(trades, windowMs)`: split the (time-sorted) trades into
windows, opening a new window whenever a trade is `windowMs` or more past the
current window's start; only nonempty windows are emitted. -/
def groupByTimeWindow (trades : List TradeData) (windowMs : ℚ) :
    List (List TradeData) :=
  match trades with
  | [] => []
  | t0 :: _ =>
    let final := trades.foldl
      (fun (st : GroupSt) trade =>
        if windowMs ≤ trade.tradeTime - st.windowStartTime then
          { windows := st.windows ++
              (if st.currentWindow = [] then [] else [st.currentWindow]),
            currentWindow := [trade],
            windowStartTime := trade.tradeTime }
        else { st with currentWindow := st.currentWindow ++ [trade] })
      ⟨[], [], t0.tradeTime⟩
    final.windows ++ (if final.currentWindow = [] then [] else [final.currentWindow])

/-- `processMultipleProfiles(trades, timeWindowMs, config)`: empty input gives
an empty list (no error); otherwise sort, group into time windows, and run
`processTradeData` per window (an inner throw propagates). -/
def processMultipleProfiles (trades : List TradeData) (timeWindowMs : ℚ)
    (config : VolumeProfileConfig) : Except String (List VolumeProfileData) :=
  match trades with
  | [] => .ok []
  | t0 :: rest =>
    let sortedTrades :=
      insSortBy (fun a b => decide (a.tradeTime ≤ b.tradeTime)) (t0 :: rest)
    let timeWindows := groupByTimeWindow sortedTrades timeWindowMs
    timeWindows.mapM fun windowTrades => processTradeData windowTrades config

/-- `calculatePOC(profile)`: price of the first bin of maximal volume
(`reduce` keeps the incumbent on ties); `null` on empty input. -/
def calculatePOC (profile : List VolumeProfileDataPoint) : Option ℚ :=
  match profile with
  | [] => none
  | h :: t =>
    some ((t.foldl (fun mx point => if mx.vol < point.vol then point else mx) h).price)

/-- Default data point for the total index accessor below. -/
def dfltPoint : VolumeProfileDataPoint := ⟨0, 0, 0, 0⟩

/-- Volume of the bin at index `i`. -/
def vaVol (profile : List VolumeProfileDataPoint) (i : ℕ) : ℚ :=
  (profile.getD i dfltPoint).vol

/-- The expansion loop of `calculateValueArea`.  The JS `while` can expand at
most `profile.length − 1` times, so fuel `profile.length` reproduces it; the
degenerate case in which JS would spin forever without expanding (a
zero-volume low neighbour with the high side exhausted) burns fuel instead
and is excluded from the theorems by a positivity hypothesis. -/
def vaLoop (profile : List VolumeProfileDataPoint) (targetVolume : ℚ) :
    ℕ → ℕ → ℕ → ℚ → ℕ × ℕ
  | 0, lowIndex, highIndex, _ => (lowIndex, highIndex)
  | fuel + 1, lowIndex, highIndex, accumulatedVolume =>
    if accumulatedVolume < targetVolume then
      let canExpandLow := 0 < lowIndex
      let canExpandHigh := highIndex < profile.length - 1
      if ¬canExpandLow ∧ ¬canExpandHigh then (lowIndex, highIndex)
      else
        let lowVolume := if canExpandLow then vaVol profile (lowIndex - 1) else 0
        let highVolume := if canExpandHigh then vaVol profile (highIndex + 1) else 0
        if highVolume < lowVolume ∧ canExpandLow then
          vaLoop profile targetVolume fuel (lowIndex - 1) highIndex
            (accumulatedVolume + lowVolume)
        else if canExpandHigh then
          vaLoop profile targetVolume fuel lowIndex (highIndex + 1)
            (accumulatedVolume + highVolume)
        else
          vaLoop profile targetVolume fuel lowIndex highIndex accumulatedVolume
    else (lowIndex, highIndex)

/-- The returned value-area bounds. -/
structure ValueArea where
  low : ℚ
  high : ℚ
deriving DecidableEq, Repr

/-- `calculateValueArea(profile, percentage)`: `null` on empty input;
otherwise expand greedily around the point of control until the accumulated
volume reaches `percentage × totalVolume`, and return the boundary prices.
`findIdx?` models `findIndex` (the `−1` case returns `null`). -/
def calculateValueArea (profile : List VolumeProfileDataPoint)
    (percentage : ℚ) : Option ValueArea :=
  match profile with
  | [] => none
  | _ :: _ =>
    let totalVolume := (profile.map (·.vol)).sum
    let targetVolume := totalVolume * percentage
    match calculatePOC profile with
    | none => none
    | some pocPrice =>
      match profile.findIdx? (fun point => decide (point.price = pocPrice)) with
      | none => none
      | some pocIndex =>
        let lh := vaLoop profile targetVolume profile.length pocIndex pocIndex
          (vaVol profile pocIndex)
        some ⟨(profile.getD lh.1 dfltPoint).price, (profile.getD lh.2 dfltPoint).price⟩

/-! ### TimeframeChart lifecycle (the per-panel Resource) -/

/-- Settlement of one `fetchBTCData` call: resolved candle array or
rejection. -/
inductive FetchOutcome where
  | ok (data : List Candle)
  | err
deriving DecidableEq, Repr

/-- Observable side effects of a `TimeframeChart`, in order of occurrence:
Rendering Surface calls, Market Data Source requests, timer waits and the
user-visible failure indicator. -/
inductive ChartEv where
  | readVisibleRange
  | fetch
  | setData
  | swingUpdate
  | priceUpdate
  | scheduleFitTimeout
  | retryWait (delay : ℕ)
  | showError
  | applyOptions
  | readSeriesData
  | fitContent
  | resetScale
  | removeChart
deriving DecidableEq, Repr

/-- The mutable fields of a `TimeframeChart` relevant to lifecycle claims.
`timeframe` is an abstract timeframe identifier; `candleData` mirrors
`candleSeries.data()`. -/
structure ChartState where
  isDestroyed : Bool
  retryCount : ℕ
  isInitialLoad : Bool
  timeframe : ℕ
  width : ℚ
  height : ℚ
  swingStructureEnabled : Bool
  comparisonPeriod : ℕ
  forwardPeriod : ℕ
  lookbackPeriod : ℕ
  candleData : List Candle
deriving DecidableEq, Repr

/-- `private maxRetries = 3`. -/
def maxRetries : ℕ := 3

mutual

/-- `loadData()` as a function of the chart state and the settlements of the
successive fetch attempts (`outcomes`; an empty list models a fetch that is
still pending when observation ends).  Returns the final state and the
emitted event trace.  The destroyed guard before issuing the request is the
source's first early return. -/
def loadData (st : ChartState) (outcomes : List FetchOutcome) :
    ChartState × List ChartEv :=
  if st.isDestroyed then (st, [])
  else
    let pre : List ChartEv := if st.isInitialLoad then [] else [.readVisibleRange]
    match outcomes with
    | [] => (st, pre ++ [.fetch])
    | o :: rest =>
      let s := settleLoad st o rest
      (s.1, pre ++ [.fetch] ++ s.2)
termination_by 3 * outcomes.length + 2

/-- The continuation of `loadData` after the awaited fetch settles.  `st` is
the chart state at settlement time — `destroy()` may have run while the fetch
was in flight.  An empty resolved array throws `"No data received"` into the
catch block.  On success the scheduled 100 ms callback clears
`isInitialLoad` (it is modelled as running unobstructed). -/
def settleLoad (st : ChartState) (o : FetchOutcome) (rest : List FetchOutcome) :
    ChartState × List ChartEv :=
  match o with
  | .ok data =>
    if data = [] then settleFail st rest
    else if st.isDestroyed then (st, [])
    else
      ({ st with candleData := data, isInitialLoad := false, retryCount := 0 },
        [.setData, .swingUpdate, .priceUpdate, .scheduleFitTimeout])
  | .err => settleFail st rest
termination_by 3 * rest.length + 4

/-- The catch block of `loadData`: silently bail out if destroyed; otherwise
increment `retryCount` FIRST, wait `min(1000·2^retryCount, 10000)` ms with the
already-incremented count, and recurse; once `retryCount` has reached
`maxRetries`, show the error state and rethrow. -/
def settleFail (st : ChartState) (rest : List FetchOutcome) :
    ChartState × List ChartEv :=
  if st.isDestroyed then (st, [])
  else if st.retryCount < maxRetries then
    let st1 := { st with retryCount := st.retryCount + 1 }
    let delay := min (1000 * 2 ^ st1.retryCount) 10000
    let s := loadData st1 rest
    (s.1, .retryWait delay :: s.2)
  else (st, [.showError])
termination_by 3 * rest.length + 3

end

/-- `destroy()`: set the flag, then release the rendering binding. -/
def destroy (st : ChartState) : ChartState × List ChartEv :=
  ({ st with isDestroyed := true }, [.removeChart])

/-- `resize(width, height)`: records the dimensions and calls
`chart.applyOptions` — the source has NO destroyed guard here. -/
def resize (st : ChartState) (width height : ℚ) : ChartState × List ChartEv :=
  ({ st with width := width, height := height }, [.applyOptions])

/-- Partial settings object accepted by `updateSettings`. -/
structure SettingsUpdate where
  swingStructureEnabled : Option Bool := none
  comparisonPeriod : Option ℕ := none
  forwardPeriod : Option ℕ := none
  lookbackPeriod : Option ℕ := none
deriving DecidableEq, Repr

/-- `updateSettings(settings)`: merge defined fields, then read
`candleSeries.data()` and re-run the swing analysis when nonempty — again no
destroyed guard in the source. -/
def updateSettings (st : ChartState) (s : SettingsUpdate) :
    ChartState × List ChartEv :=
  let st1 := { st with
    swingStructureEnabled := s.swingStructureEnabled.getD st.swingStructureEnabled,
    comparisonPeriod := s.comparisonPeriod.getD st.comparisonPeriod,
    forwardPeriod := s.forwardPeriod.getD st.forwardPeriod,
    lookbackPeriod := s.lookbackPeriod.getD st.lookbackPeriod }
  (st1, .readSeriesData ::
    (if st1.candleData = [] then [] else [.swingUpdate]))

/-- `changeTimeframe(timeframe)`: guarded by `isDestroyed`; resets the retry
count, marks the next load as initial, records the timeframe and reloads. -/
def changeTimeframe (st : ChartState) (timeframe : ℕ)
    (outcomes : List FetchOutcome) : ChartState × List ChartEv :=
  if st.isDestroyed then (st, [])
  else
    loadData
      { st with retryCount := 0, isInitialLoad := true, timeframe := timeframe }
      outcomes

/-- `adjustToContainerSize()` with the measured container dimensions as
parameters: destroyed guard, then resize to the clamped dimensions when both
are positive. -/
def adjustToContainerSize (st : ChartState) (actualWidth actualHeight : ℚ) :
    ChartState × List ChartEv :=
  if st.isDestroyed then (st, [])
  else if 0 < actualWidth ∧ 0 < actualHeight ∧ ¬(st.isDestroyed = true) then
    resize st (max 300 (actualWidth - 2)) (max 300 (actualHeight - 50))
  else (st, [])

/-- `autoFitContent()`: guarded `fitContent`. -/
def autoFitContent (st : ChartState) : ChartState × List ChartEv :=
  if st.isDestroyed then (st, []) else (st, [.fitContent])

/-- `resetPriceScale()`: guarded autoscale reset. -/
def resetPriceScale (st : ChartState) : ChartState × List ChartEv :=
  if st.isDestroyed then (st, []) else (st, [.resetScale])

/-! ### ChartManager (the Resource Registry) -/

/-- Decimal digit character, `0 ↦ '0', …, 9 ↦ '9'` (only ever applied below
`10`). -/
def digitChar : ℕ → Char
  | 0 => '0'
  | 1 => '1'
  | 2 => '2'
  | 3 => '3'
  | 4 => '4'
  | 5 => '5'
  | 6 => '6'
  | 7 => '7'
  | 8 => '8'
  | _ => '9'

/-- Fuel-driven decimal printer: with fuel exceeding the digit count this is
the usual most-significant-first expansion. -/
def natDigitsAux : ℕ → ℕ → List Char
  | 0, _ => []
  | fuel + 1, n =>
    if n < 10 then [digitChar n]
    else natDigitsAux fuel (n / 10) ++ [digitChar (n % 10)]

/-- Decimal digits of `n`, most significant first — the JS
number-to-string conversion used by `` `chart-${this.nextChartId++}` ``
(`n + 1` units of fuel always suffice). -/
def natDigits (n : ℕ) : List Char := natDigitsAux (n + 1) n

/-- `parseInt(s, 10)` on a digit run. -/
def parseDigits (l : List Char) : ℕ :=
  l.foldl (fun n c => 10 * n + (c.toNat - 48)) 0

/-- The regex scan `id.match(/chart-(\d+)/)` followed by
`parseInt(match[1], 10)`: try each start position left to right; at a
position starting with `chart-` followed by at least one digit, capture the
maximal digit run, else advance one character. -/
def matchChartNum : List Char → Option ℕ
  | [] => none
  | c :: cs =>
    match c :: cs with
    | 'c' :: 'h' :: 'a' :: 'r' :: 't' :: '-' :: rest =>
      let ds := rest.takeWhile fun ch => ch.isDigit
      if ds = [] then matchChartNum cs else some (parseDigits ds)
    | _ => matchChartNum cs

/-- Numeric suffix extraction on a string id. -/
def chartNumOf (s : String) : Option ℕ := matchChartNum s.toList

/-- The generated id `` `chart-${n}` ``. -/
def genId (n : ℕ) : String := "chart-" ++ ⟨natDigits n⟩

/-- One saved `ChartLayout` entry. -/
structure ChartLayout where
  id : String
  timeframeId : String
  width : ℚ
  height : ℚ
  order : ℤ
deriving DecidableEq, Repr

/-- The `reduce` of `loadFromState`: maximum numeric suffix among saved ids
(ids without a match contribute nothing), starting from `0`. -/
def maxChartNum (sortedCharts : List ChartLayout) : ℕ :=
  sortedCharts.foldl
    (fun mx layout =>
      match chartNumOf layout.id with
      | some num => max mx num
      | none => mx) 0

/-- `state.charts.sort((a, b) => a.order - b.order)`. -/
def sortLayouts (charts : List ChartLayout) : List ChartLayout :=
  insSortBy (fun a b => decide (a.order ≤ b.order)) charts

/-- The id-sequence recovery of `loadFromState`:
`nextChartId = maxChartNum + 1`. -/
def nextChartIdAfterRestore (state : List ChartLayout) : ℕ :=
  maxChartNum (sortLayouts state) + 1

/-- The `TimeframeChart` object constructed by `addChart`, reduced to its
destroyed flag. -/
structure ChartHandle where
  destroyed : Bool
deriving DecidableEq, Repr

/-- The `ChartManager` state touched by `addChart`: the keys of its four maps
(in insertion order), the id counter, and a count of `saveState()`
persistence writes. -/
structure Registry where
  charts : List String
  nextChartId : ℕ
  eventListeners : List String
  observers : List String
  dom : List String
  saveCount : ℕ
deriving DecidableEq, Repr

/-- Which step of `addChart` throws (or none). -/
inductive AddStep where
  | containerCtor
  | chartCtor
  | settings
  | load
  | success
deriving DecidableEq, Repr

/-- Result of one `addChart` call. -/
structure AddChartResult where
  registry : Registry
  chart : Option ChartHandle
  result : Except Unit String

/-- `map.set(k, …)` restricted to keys: an existing key keeps its position. -/
def mapSetKey (l : List String) (k : String) : List String :=
  if k ∈ l then l else l ++ [k]

/-- The id chosen by `addChart`: the supplied one, else
`` `chart-${this.nextChartId++}` ``. -/
def addChartId (reg : Registry) (id? : Option String) : String :=
  match id? with
  | some i => i
  | none => genId reg.nextChartId

/-- `addChart(timeframe, id?, …)` with an explicit failure point.  The happy
path: create and append the container, attach (and record) its event
listeners, construct the chart, put it into the `charts` map, apply settings,
load data, set up the resize observer, persist.  On a throw anywhere, the
catch block deletes the `charts` entry (if added), destroys the chart (if
constructed), removes the appended container element, and rethrows — it does
NOT roll back the id counter nor the `eventListeners` entry. -/
def addChart (reg : Registry) (id? : Option String) (step : AddStep) :
    AddChartResult :=
  let chartId := addChartId reg id?
  let reg0 := match id? with
    | some _ => reg
    | none => { reg with nextChartId := reg.nextChartId + 1 }
  match step with
  | .containerCtor =>
    ⟨reg0, none, .error ()⟩
  | .chartCtor =>
    let regTry := { reg0 with dom := reg0.dom ++ [chartId],
                              eventListeners := mapSetKey reg0.eventListeners chartId }
    ⟨{ regTry with dom := reg0.dom }, none, .error ()⟩
  | .settings =>
    let regTry := { reg0 with dom := reg0.dom ++ [chartId],
                              eventListeners := mapSetKey reg0.eventListeners chartId,
                              charts := mapSetKey reg0.charts chartId }
    ⟨{ regTry with charts := regTry.charts.filter fun i => decide (i ≠ chartId),
                   dom := reg0.dom },
      some ⟨true⟩, .error ()⟩
  | .load =>
    let regTry := { reg0 with dom := reg0.dom ++ [chartId],
                              eventListeners := mapSetKey reg0.eventListeners chartId,
                              charts := mapSetKey reg0.charts chartId }
    ⟨{ regTry with charts := regTry.charts.filter fun i => decide (i ≠ chartId),
                   dom := reg0.dom },
      some ⟨true⟩, .error ()⟩
  | .success =>
    let regTry := { reg0 with dom := reg0.dom ++ [chartId],
                              eventListeners := mapSetKey reg0.eventListeners chartId,
                              charts := mapSetKey reg0.charts chartId,
                              observers := mapSetKey reg0.observers chartId }
    ⟨{ regTry with saveCount := regTry.saveCount + 1 }, some ⟨false⟩, .ok chartId⟩

/-! ### Shared concrete states for witnesses and counterexamples -/

/-- A chart state with the destroyed flag set. -/
def destroyedChartState : ChartState :=
  ⟨true, 0, true, 0, 600, 300, true, 5, 5, 200, []⟩

/-- A freshly constructed chart state (not destroyed, zero retries, initial
load pending). -/
def freshChartState : ChartState :=
  ⟨false, 0, true, 0, 600, 300, true, 5, 5, 200, []⟩

/-- An empty registry whose id counter is at `1`, as after construction. -/
def emptyRegistry : Registry := ⟨[], 1, [], [], [], 0⟩

/-- The retry delays recorded in an event trace, in order. -/
def delaysOf (evs : List ChartEv) : List ℕ :=
  evs.filterMap fun e =>
    match e with
    | .retryWait d => some d
    | _ => none

/-- A saved layout with ids `chart-1` … `chart-7`. -/
def savedLayout7 : List ChartLayout :=
  [⟨"chart-1", "1m", 400, 300, 0⟩, ⟨"chart-2", "5m", 400, 300, 1⟩,
   ⟨"chart-3", "15m", 400, 300, 2⟩, ⟨"chart-4", "1h", 400, 300, 3⟩,
   ⟨"chart-5", "4h", 400, 300, 4⟩, ⟨"chart-6", "12h", 400, 300, 5⟩,
   ⟨"chart-7", "1d", 400, 300, 6⟩]

/-- Five candles whose middle candle at index 1 is simultaneously a swing
high and a swing low for `lookback = 1`, and whose index-3 candle is a lower
swing low.  Fields: time, open, high, low, close. -/
def cexCandles : List Candle :=
  [⟨0, 0, 20, 18, 0⟩, ⟨1, 0, 40, 2, 0⟩, ⟨2, 0, 10, 8, 0⟩,
   ⟨3, 0, 12, 1, 0⟩, ⟨4, 0, 14, 6, 0⟩]

/-- Two trades, one inside and one outside the configured price range. -/
def cexTrades : List TradeData :=
  [⟨5, 1, 0, "buy", false⟩, ⟨100, 1, 1, "sell", false⟩]

/-- A config whose `priceRange` (`[0, 10]`, five levels, tick `2`) excludes
the second trade's price `100`. -/
def cexConfig : VolumeProfileConfig :=
  { priceRange := some ⟨0, 10⟩, numPriceLevels := some 5, tickSize := none }

/-- Total profile volume of a `processTradeData` result (`0` on error). -/
def profileVolSum (r : Except String VolumeProfileData) : ℚ :=
  match r with
  | .ok d => (d.profile.map (·.vol)).sum
  | .error _ => 0

/-- Sum of bin volumes over the inclusive index range `[lo, hi]`. -/
def vaSumRange (profile : List VolumeProfileDataPoint) (lo hi : ℕ) : ℚ :=
  ∑ i in Finset.Icc lo hi, vaVol profile i

/-- A five-bin profile (prices 1–5, volumes 50/1/60/2/9) on which the greedy
value-area expansion overshoots: see the C9 counterexample. -/
def cexProfile : List VolumeProfileDataPoint :=
  [⟨1, 50, 0, 0⟩, ⟨2, 1, 0, 0⟩, ⟨3, 60, 0, 0⟩, ⟨4, 2, 0, 0⟩, ⟨5, 9, 0, 0⟩]

/-- The previous-price carried through a classified run: the last point's
price, or the initial carry when the run is empty. -/
def chainCarry (o : Option ℚ) (l : List SwingPoint) : Option ℚ :=
  l.foldl (fun _ p => some p.price) o

/-- The map key a trade is binned under:
`min + round((price − min)/tick) · tick`. -/
def tradeKey (minPrice tickSize : ℚ) (trade : TradeData) : ℚ :=
  minPrice + (jsRound ((trade.price - minPrice) / tickSize) : ℚ) * tickSize

/-- Total volume held in a level map. -/
def sumTot (m : List (ℚ × PriceLevelVolume)) : ℚ :=
  (m.map fun e => e.2.totalVolume).sum

/-- The accumulator update a trade applies to its bin (the three `let`
stages of `applyTrade`). -/
def updateLevel (level : PriceLevelVolume) (trade : TradeData) : PriceLevelVolume :=
  let level1 := { level with
    totalVolume := level.totalVolume + trade.volume,
    tradeCount := level.tradeCount + 1 }
  let level2 :=
    if trade.side.toLower == "buy" then
      { level1 with buyVolume := level1.buyVolume + trade.volume }
    else
      { level1 with sellVolume := level1.sellVolume + trade.volume }
  if trade.isMaker then
    { level2 with makerVolume := level2.makerVolume + trade.volume }
  else
    { level2 with takerVolume := level2.takerVolume + trade.volume }

/-! ### C6 — short candle series yield no swing points -/

/-- C6: for every candle list shorter than `2·lookback + 1` (comparison and
forward windows are both the single `lookback` parameter) and every
`analyzePeriod`, `detectSwingPoints` returns the empty sequence. -/
theorem detectSwingPoints_short_input_empty (data : List Candle)
    (lookback analyzePeriod : ℕ) (h : data.length < 2 * lookback + 1) :
    detectSwingPoints data lookback analyzePeriod = [] := by
  have hcount :
      data.length - lookback - max lookback (data.length - analyzePeriod) = 0 := by
    omega
  have hrange :
      List.range' (max lookback (data.length - analyzePeriod))
        (data.length - lookback - max lookback (data.length - analyzePeriod)) = [] := by
    rw [hcount]
    simp
  simp [detectSwingPoints, detectSwingPointsCore, hrange, insSortBy, dedupByTimestamp]

/-- C6 witness: four candles with `lookback = 2` produce no swing points. -/
theorem detectSwingPoints_short_input_empty_witness :
    [dfltCandle, dfltCandle, dfltCandle, dfltCandle].length < 2 * 2 + 1 ∧
      detectSwingPoints [dfltCandle, dfltCandle, dfltCandle, dfltCandle] 2 8 = [] :=
  ⟨by decide, detectSwingPoints_short_input_empty _ 2 8 (by decide)⟩

/-! ### C1 — destroy before fetch settlement -/

/-- C1: if the chart is destroyed while its fetch is in flight, the
settlement continuation (success, empty payload, or rejection alike) leaves
the state untouched — the destroyed flag in particular — and performs no
rendering-surface call, no price update, and no retry scheduling. -/
theorem destroyed_midload_settle_noop (st : ChartState) (o : FetchOutcome)
    (rest : List FetchOutcome) (h : st.isDestroyed = true) :
    settleLoad st o rest = (st, []) := by
  cases o with
  | ok data =>
    by_cases hd : data = [] <;> simp [settleLoad, settleFail, h, hd]
  | err => simp [settleLoad, settleFail, h]

/-- C1 witness: a destroyed chart discards a rejected fetch silently. -/
theorem destroyed_midload_settle_noop_witness :
    destroyedChartState.isDestroyed = true ∧
      settleLoad destroyedChartState .err [] = (destroyedChartState, []) :=
  ⟨rfl, destroyed_midload_settle_noop destroyedChartState .err [] rfl⟩

/-! ### C2 — operations on a destroyed chart -/

/-- C2 (amended): on a destroyed chart, the guarded operations (`loadData`,
`changeTimeframe`, `adjustToContainerSize`, `autoFitContent`,
`resetPriceScale`) are strict no-ops, and no operation — including the
unguarded `resize` and `updateSettings` and a repeated `destroy` — ever
clears the destroyed flag; but `resize` and `updateSettings` are NOT no-ops
(see the counterexample). -/
theorem destroyed_chart_operations (st : ChartState) (outs : List FetchOutcome)
    (tf : ℕ) (w h : ℚ) (s : SettingsUpdate) (hd : st.isDestroyed = true) :
    loadData st outs = (st, []) ∧
      changeTimeframe st tf outs = (st, []) ∧
      adjustToContainerSize st w h = (st, []) ∧
      autoFitContent st = (st, []) ∧
      resetPriceScale st = (st, []) ∧
      (resize st w h).1.isDestroyed = true ∧
      (updateSettings st s).1.isDestroyed = true ∧
      (destroy st).1.isDestroyed = true := by
  refine ⟨?_, ?_, ?_, ?_, ?_, ?_, ?_, ?_⟩ <;>
    simp [loadData, changeTimeframe, adjustToContainerSize, autoFitContent,
      resetPriceScale, resize, updateSettings, destroy, hd]

/-- C2 witness: the amended statement at a concrete destroyed state. -/
theorem destroyed_chart_operations_witness :
    destroyedChartState.isDestroyed = true ∧
      loadData destroyedChartState [] = (destroyedChartState, []) ∧
      changeTimeframe destroyedChartState 1 [] = (destroyedChartState, []) :=
  ⟨rfl,
    (destroyed_chart_operations destroyedChartState [] 1 100 100 {} rfl).1,
    (destroyed_chart_operations destroyedChartState [] 1 100 100 {} rfl).2.1⟩

/-- C2 counterexample to the claim as stated: `resize` on a destroyed chart
is not a no-op — it still invokes the Rendering Surface
(`chart.applyOptions`), because the source has no destroyed guard there. -/
theorem destroyed_resize_not_noop :
    destroyedChartState.isDestroyed = true ∧
      (resize destroyedChartState 100 100).2 = [ChartEv.applyOptions] ∧
      (resize destroyedChartState 100 100).2 ≠ [] := by
  refine ⟨rfl, rfl, ?_⟩
  simp [resize]

/-! ### C10 — empty-input behaviour of the two processors -/

/-- C10: `processTradeData` throws exactly on an empty trade list (and
returns a `VolumeProfileData` on every non-empty one), while
`processMultipleProfiles` returns the empty list, not an error, on empty
input. -/
theorem processTradeData_empty_error_iff :
    (∀ (trades : List TradeData) (config : VolumeProfileConfig),
        (∃ e, processTradeData trades config = Except.error e) ↔ trades = []) ∧
      ∀ (timeWindowMs : ℚ) (config : VolumeProfileConfig),
        processMultipleProfiles [] timeWindowMs config = Except.ok [] := by
  constructor
  · intro trades config
    cases trades with
    | nil => simp [processTradeData]
    | cons t ts => simp [processTradeData]
  · intro timeWindowMs config
    rfl

/-! ### C5 — retry backoff schedule -/

/-- C5 (amended): on a fetch failure of a non-destroyed chart whose
`retryCount` is `k < maxRetries`, the scheduled wait is
`min(1000·2^(k+1), 10000)` — the count is incremented BEFORE the delay is
computed, so the successive waits from a fresh chart are 2000, 4000 and
8000 ms (not 1000, 2000, 4000); once `retryCount` has reached
`maxRetries = 3` (i.e. on the fourth consecutive failure) the chart shows the
visible failure indicator instead of scheduling another retry.  The last
conjunct runs a fresh chart against four straight failures: the recorded
delays are exactly `[2000, 4000, 8000]`, the failure indicator fires, and
the final retry count is `3`. -/
theorem retry_backoff_schedule (st : ChartState) (rest : List FetchOutcome)
    (hd : st.isDestroyed = false) :
    (st.retryCount < maxRetries →
      (settleLoad st .err rest).2 =
        ChartEv.retryWait (min (1000 * 2 ^ (st.retryCount + 1)) 10000) ::
          (loadData { st with retryCount := st.retryCount + 1 } rest).2) ∧
      (maxRetries ≤ st.retryCount →
        settleLoad st .err rest = (st, [ChartEv.showError])) ∧
      (st.retryCount = 0 →
        delaysOf (loadData st [.err, .err, .err, .err]).2 = [2000, 4000, 8000] ∧
          ChartEv.showError ∈ (loadData st [.err, .err, .err, .err]).2 ∧
          (loadData st [.err, .err, .err, .err]).1.retryCount = 3) := by
  refine ⟨?_, ?_, ?_⟩
  · intro hk
    simp [settleLoad, settleFail, hd, hk]
  · intro hk
    have : ¬ st.retryCount < maxRetries := by omega
    simp [settleLoad, settleFail, hd, this]
  · intro h0
    cases hInit : st.isInitialLoad <;>
      simp [loadData, settleLoad, settleFail, hd, h0, hInit, delaysOf, maxRetries]

/-- C5 witness: the amended schedule at a fresh chart state. -/
theorem retry_backoff_schedule_witness :
    freshChartState.isDestroyed = false ∧ freshChartState.retryCount = 0 ∧
      delaysOf (loadData freshChartState [.err, .err, .err, .err]).2 =
        [2000, 4000, 8000] :=
  ⟨rfl, rfl, ((retry_backoff_schedule freshChartState [] rfl).2.2 rfl).1⟩

/-- C5 counterexample to the claim as stated: from `retryCount = 0` the first
retry waits 2000 ms, not `min(1000·2^0, 10000) = 1000` ms — the source
increments the count before computing the delay. -/
theorem retry_backoff_claim_counterexample :
    delaysOf (loadData freshChartState [.err, .ok [dfltCandle]]).2 = [2000] ∧
      (2000 : ℕ) ≠ min (1000 * 2 ^ (0 : ℕ)) 10000 := by
  constructor
  · simp [loadData, settleLoad, settleFail, freshChartState, delaysOf, maxRetries]
  · decide

/-! ### C3 — transactional addChart -/

/-- C3 (amended): when any step of `addChart` throws (container construction,
chart construction, settings application, or the initial load), the error
propagates, the `charts` map holds no entry for the new id, the constructed
chart (if any) has been destroyed, the attached container element has been
removed (the DOM is exactly as before), and no layout persistence write
happened; the id counter advance and the `eventListeners` entry recorded for
the failed id are, however, not rolled back (see the counterexample). -/
theorem addChart_failure_cleanup (reg : Registry) (id? : Option String)
    (step : AddStep) (hfail : step ≠ .success)
    (hfresh : addChartId reg id? ∉ reg.charts) :
    (addChart reg id? step).result = Except.error () ∧
      addChartId reg id? ∉ (addChart reg id? step).registry.charts ∧
      (addChart reg id? step).registry.dom = reg.dom ∧
      (∀ c, (addChart reg id? step).chart = some c → c.destroyed = true) ∧
      (addChart reg id? step).registry.saveCount = reg.saveCount := by
  cases step with
  | success => exact absurd rfl hfail
  | containerCtor =>
    cases id? <;>
      simp [addChart, addChartId] <;>
      simpa [addChartId] using hfresh
  | chartCtor =>
    cases id? <;>
      simp [addChart, addChartId] <;>
      simpa [addChartId] using hfresh
  | settings =>
    cases id? <;> simp [addChart, addChartId, mapSetKey]
  | load =>
    cases id? <;> simp [addChart, addChartId, mapSetKey]

/-- C3 witness: a failed initial load on an empty registry leaves no chart
entry, no DOM element, a destroyed chart object, and no persistence write. -/
theorem addChart_failure_cleanup_witness :
    (AddStep.load ≠ AddStep.success ∧ addChartId emptyRegistry none ∉ emptyRegistry.charts) ∧
      (addChart emptyRegistry none .load).result = Except.error () ∧
      addChartId emptyRegistry none ∉ (addChart emptyRegistry none .load).registry.charts ∧
      (addChart emptyRegistry none .load).registry.dom = emptyRegistry.dom ∧
      (addChart emptyRegistry none .load).registry.saveCount = emptyRegistry.saveCount :=
  ⟨⟨by decide, by simp [emptyRegistry]⟩,
    (addChart_failure_cleanup emptyRegistry none .load (by decide) (by simp [emptyRegistry])).1,
    (addChart_failure_cleanup emptyRegistry none .load (by decide) (by simp [emptyRegistry])).2.1,
    (addChart_failure_cleanup emptyRegistry none .load (by decide) (by simp [emptyRegistry])).2.2.1,
    (addChart_failure_cleanup emptyRegistry none .load (by decide) (by simp [emptyRegistry])).2.2.2.2⟩

/-- C3 counterexample to the claim as stated: after a chart-construction
failure the registry does NOT equal its prior state — the id counter stays
advanced and the `eventListeners` map keeps an entry for the failed id. -/
theorem addChart_failure_state_changed :
    (addChart emptyRegistry none .chartCtor).result = Except.error () ∧
      (addChart emptyRegistry none .chartCtor).registry.eventListeners = ["chart-1"] ∧
      (addChart emptyRegistry none .chartCtor).registry.nextChartId = 2 ∧
      (addChart emptyRegistry none .chartCtor).registry ≠ emptyRegistry := by
  refine ⟨rfl, by decide, rfl, ?_⟩
  intro h
  have : (addChart emptyRegistry none .chartCtor).registry.nextChartId =
      emptyRegistry.nextChartId := by rw [h]
  simp [addChart, emptyRegistry] at this

/-! ### C4 — id-sequence recovery after restore -/

/-- Every digit character produced by `digitChar` satisfies `isDigit`. -/
theorem digitChar_isDigit (m : ℕ) : (digitChar m).isDigit = true := by
  unfold digitChar
  split <;> decide

/-- Value of a produced digit character, below ten. -/
theorem digitChar_val (m : ℕ) (h : m < 10) : (digitChar m).toNat - 48 = m := by
  interval_cases m <;> decide

/-- All characters of the fuel-driven decimal expansion are digits. -/
theorem natDigitsAux_digits (fuel : ℕ) :
    ∀ (n : ℕ) (c : Char), c ∈ natDigitsAux fuel n → c.isDigit = true := by
  induction fuel with
  | zero => intro n c hc; simp [natDigitsAux] at hc
  | succ fuel ih =>
    intro n c hc
    by_cases h : n < 10
    · simp [natDigitsAux, h] at hc
      subst hc
      exact digitChar_isDigit n
    · simp [natDigitsAux, h] at hc
      rcases hc with hc | hc
      · exact ih _ _ hc
      · subst hc
        exact digitChar_isDigit _
  

/-- The decimal expansion is never empty (with at least one unit of fuel). -/
theorem natDigitsAux_ne_nil (fuel n : ℕ) (h : 0 < fuel) :
    natDigitsAux fuel n ≠ [] := by
  cases fuel with
  | zero => omega
  | succ fuel =>
    by_cases hn : n < 10 <;> simp [natDigitsAux, hn]

/-- `parseDigits` distributes over a trailing digit. -/
theorem parseDigits_append (l : List Char) (c : Char) :
    parseDigits (l ++ [c]) = 10 * parseDigits l + (c.toNat - 48) := by
  simp [parseDigits, List.foldl_append]

/-- With enough fuel, `parseDigits` inverts the decimal printer. -/
theorem parseDigits_natDigitsAux (fuel : ℕ) :
    ∀ n : ℕ, n < fuel → parseDigits (natDigitsAux fuel n) = n := by
  induction fuel with
  | zero => intro n h; omega
  | succ fuel ih =>
    intro n h
    by_cases hn : n < 10
    · simp [natDigitsAux, hn, parseDigits, digitChar_val n hn]
    · have hdiv : n / 10 < fuel :=
        lt_of_lt_of_le (Nat.div_lt_self (by omega) (by omega)) (by omega)
      have hmod : n % 10 < 10 := Nat.mod_lt _ (by omega)
      simp [natDigitsAux, hn, parseDigits_append, ih _ hdiv, digitChar_val _ hmod]
      omega

/-- `parseDigits` inverts `natDigits`. -/
theorem parseDigits_natDigits (n : ℕ) : parseDigits (natDigits n) = n :=
  parseDigits_natDigitsAux (n + 1) n (Nat.lt_succ_self n)

/-- `takeWhile` keeps a list all of whose elements satisfy the predicate. -/
theorem takeWhile_of_all {p : Char → Bool} :
    ∀ {l : List Char}, (∀ c ∈ l, p c = true) → l.takeWhile p = l := by
  intro l
  induction l with
  | nil => intro _; rfl
  | cons c cs ih =>
    intro h
    simp [List.takeWhile_cons, h c (by simp), ih fun d hd => h d (by simp [hd])]

/-- The regex scan recovers the counter from a generated id. -/
theorem chartNumOf_genId (n : ℕ) : chartNumOf (genId n) = some n := by
  have hlist : (genId n).toList = 'c' :: 'h' :: 'a' :: 'r' :: 't' :: '-' :: natDigits n := by
    simp [genId, String.toList]
  have hdigits : (natDigits n).takeWhile (fun ch => ch.isDigit) = natDigits n :=
    takeWhile_of_all fun c hc => natDigitsAux_digits (n + 1) n c hc
  have hne : natDigits n ≠ [] := natDigitsAux_ne_nil (n + 1) n (by omega)
  rw [chartNumOf, hlist]
  simp [matchChartNum, hdigits, hne, parseDigits_natDigits]

/-- Stable insertion is a permutation of consing. -/
theorem insSortIns_perm (le : α → α → Bool) (x : α) (l : List α) :
    (insSortIns le x l).Perm (x :: l) := by
  induction l with
  | nil => simp [insSortIns]
  | cons y ys ih =>
    by_cases h : le x y
    · simp [insSortIns, h]
    · simpa [insSortIns, h] using ((ih.cons y).trans (List.Perm.swap x y ys))

/-- The stable sort is a permutation of its input. -/
theorem insSortBy_perm (le : α → α → Bool) (l : List α) :
    (insSortBy le l).Perm l := by
  induction l with
  | nil => simp [insSortBy]
  | cons x xs ih =>
    exact (insSortIns_perm le x (insSortBy le xs)).trans (ih.cons x)

/-- Folding `max` is invariant under permutation. -/
theorem foldl_max_perm {l l' : List ℕ} (h : l.Perm l') :
    ∀ a : ℕ, l.foldl max a = l'.foldl max a := by
  induction h with
  | nil => intro a; rfl
  | cons x _ ih => intro a; simpa using ih (max a x)
  | swap x y l =>
    intro a
    have : max (max a y) x = max (max a x) y := by omega
    simp [this]
  | trans _ _ ih1 ih2 => intro a; exact (ih1 a).trans (ih2 a)

/-- Every member of a list is bounded by the `max`-fold, and the seed is
too. -/
theorem foldl_max_bounds (l : List ℕ) :
    ∀ a : ℕ, a ≤ l.foldl max a ∧ ∀ k ∈ l, k ≤ l.foldl max a := by
  induction l with
  | nil => intro a; simp
  | cons x xs ih =>
    intro a
    constructor
    · exact le_trans (Nat.le_max_left a x) (ih (max a x)).1
    · intro k hk
      rcases List.mem_cons.mp hk with rfl | hk
      · exact le_trans (Nat.le_max_right a k) (ih (max a k)).1
      · exact (ih (max a x)).2 k hk

/-- `maxChartNum` only looks at the parsed numeric suffixes. -/
theorem maxChartNum_eq_filterMap (l : List ChartLayout) :
    maxChartNum l = (l.filterMap fun la => chartNumOf la.id).foldl max 0 := by
  suffices h : ∀ (l : List ChartLayout) (a : ℕ),
      l.foldl (fun mx layout =>
        match chartNumOf layout.id with
        | some num => max mx num
        | none => mx) a = (l.filterMap fun la => chartNumOf la.id).foldl max a by
    exact h l 0
  intro l
  induction l with
  | nil => intro a; rfl
  | cons la ls ih =>
    intro a
    cases h : chartNumOf la.id <;> simp [List.filterMap_cons, h, ih]

/-- C4: when every saved id is a generated `chart-N` id (`N` drawn from
`ks`), the restored id-sequence counter equals one more than the maximum
numeric suffix; the id the next `addChart` call generates from that counter
is fresh — it collides with none of the restored ids — and `addChart`
without an explicit id indeed returns exactly that id. -/
theorem restore_id_sequence (ls : List ChartLayout) (ks : List ℕ)
    (hids : ls.map (fun la => la.id) = ks.map genId) :
    nextChartIdAfterRestore ls = ks.foldl max 0 + 1 ∧
      genId (ks.foldl max 0 + 1) ∉ ls.map (fun la => la.id) ∧
      ∀ reg : Registry, reg.nextChartId = nextChartIdAfterRestore ls →
        (addChart reg none .success).result =
          Except.ok (genId (ks.foldl max 0 + 1)) := by
  have hfm : (ls.filterMap fun la => chartNumOf la.id) = ks := by
    have h1 : (ls.filterMap fun la => chartNumOf la.id) =
        (ls.map fun la => la.id).filterMap chartNumOf := by
      rw [List.filterMap_map]
      rfl
    rw [h1, hids, List.filterMap_map]
    have : (chartNumOf ∘ genId) = fun k => some k := by
      funext k
      exact chartNumOf_genId k
    rw [this]
    simp
  have hmax : nextChartIdAfterRestore ls = ks.foldl max 0 + 1 := by
    rw [nextChartIdAfterRestore, maxChartNum_eq_filterMap]
    have hperm : ((sortLayouts ls).filterMap fun la => chartNumOf la.id).Perm
        (ls.filterMap fun la => chartNumOf la.id) :=
      (insSortBy_perm _ ls).filterMap _
    rw [foldl_max_perm hperm 0, hfm]
  refine ⟨hmax, ?_, ?_⟩
  · intro hmem
    rw [hids] at hmem
    rcases List.mem_map.mp hmem with ⟨k, hk, hgen⟩
    have : k = ks.foldl max 0 + 1 := by
      have h1 := chartNumOf_genId k
      have h2 := chartNumOf_genId (ks.foldl max 0 + 1)
      rw [hgen, h2] at h1
      exact (Option.some.inj h1).symm
    have hle : k ≤ ks.foldl max 0 := (foldl_max_bounds ks 0).2 k hk
    omega
  · intro reg hreg
    simp [addChart, addChartId, hreg, hmax]

/-- C4 witness: restoring `chart-1` … `chart-7` sets the counter to `8`; the
next auto-generated id is `chart-8` and collides with no restored id. -/
theorem restore_id_sequence_witness :
    savedLayout7.map (fun la => la.id) = ([1, 2, 3, 4, 5, 6, 7] : List ℕ).map genId ∧
      nextChartIdAfterRestore savedLayout7 = 8 ∧
      genId 8 = "chart-8" ∧
      genId 8 ∉ savedLayout7.map (fun la => la.id) ∧
      (addChart { emptyRegistry with nextChartId := nextChartIdAfterRestore savedLayout7 }
          none .success).result = Except.ok "chart-8" := by
  have h : savedLayout7.map (fun la => la.id) =
      ([1, 2, 3, 4, 5, 6, 7] : List ℕ).map genId := by decide
  have main := restore_id_sequence savedLayout7 [1, 2, 3, 4, 5, 6, 7] h
  have hfold : ([1, 2, 3, 4, 5, 6, 7] : List ℕ).foldl max 0 + 1 = 8 := by decide
  refine ⟨h, ?_, by decide, ?_, ?_⟩
  · rw [main.1, hfold]
  · have := main.2.1
    rw [hfold] at this
    exact this
  · have := main.2.2 { emptyRegistry with nextChartId := nextChartIdAfterRestore savedLayout7 } rfl
    rw [hfold] at this
    have hg : genId 8 = "chart-8" := by decide
    rw [hg] at this
    exact this

/-! ### C7 — swing-point classification -/

/-- The carry of a cons unfolds to the carry of the tail. -/
theorem chainCarry_cons (o : Option ℚ) (q : SwingPoint) (l : List SwingPoint) :
    chainCarry o (q :: l) = chainCarry (some q.price) l := rfl

/-- The carry after appending one point is that point's price. -/
theorem chainCarry_append_single (o : Option ℚ) (l : List SwingPoint)
    (p : SwingPoint) : chainCarry o (l ++ [p]) = some p.price := by
  simp [chainCarry, List.foldl_append]

/-- Appending one point to a high-classification chain: the prefix must chain
and the new point's label must match the carried previous price. -/
theorem chainHigh_append_single (p : SwingPoint) :
    ∀ (l : List SwingPoint) (o : Option ℚ),
      chainHigh o (l ++ [p]) ↔
        chainHigh o l ∧
          p.type = (match chainCarry o l with
            | none => SwingType.HH
            | some prev => if prev < p.price then SwingType.HH else SwingType.LH) := by
  intro l
  induction l with
  | nil =>
    intro o
    cases o <;> simp [chainHigh, chainCarry]
  | cons q l ih =>
    intro o
    cases o <;>
      simp [chainHigh, chainCarry_cons, ih (some q.price)] <;>
      tauto

/-- Appending one point to a low-classification chain. -/
theorem chainLow_append_single (p : SwingPoint) :
    ∀ (l : List SwingPoint) (o : Option ℚ),
      chainLow o (l ++ [p]) ↔
        chainLow o l ∧
          p.type = (match chainCarry o l with
            | none => SwingType.HL
            | some prev => if prev < p.price then SwingType.HL else SwingType.LL) := by
  intro l
  induction l with
  | nil =>
    intro o
    cases o <;> simp [chainLow, chainCarry]
  | cons q l ih =>
    intro o
    cases o <;>
      simp [chainLow, chainCarry_cons, ih (some q.price)] <;>
      tauto

/-- Appending a high point leaves the low run unchanged. -/
theorem filter_low_append_high (stp : List SwingPoint) (pt : SwingPoint)
    (hpt : pt.isHigh = true) :
    (stp ++ [pt]).filter (fun p => !p.isHigh) = stp.filter fun p => !p.isHigh := by
  simp [List.filter_append, hpt]

/-- Appending a high point extends the high run. -/
theorem filter_high_append_high (stp : List SwingPoint) (pt : SwingPoint)
    (hpt : pt.isHigh = true) :
    (stp ++ [pt]).filter (fun p => p.isHigh) =
      (stp.filter fun p => p.isHigh) ++ [pt] := by
  simp [List.filter_append, hpt]

/-- Appending a low point leaves the high run unchanged. -/
theorem filter_high_append_low (stp : List SwingPoint) (pt : SwingPoint)
    (hpt : pt.isHigh = false) :
    (stp ++ [pt]).filter (fun p => p.isHigh) = stp.filter fun p => p.isHigh := by
  simp [List.filter_append, hpt]

/-- Appending a low point extends the low run. -/
theorem filter_low_append_low (stp : List SwingPoint) (pt : SwingPoint)
    (hpt : pt.isHigh = false) :
    (stp ++ [pt]).filter (fun p => !p.isHigh) =
      (stp.filter fun p => !p.isHigh) ++ [pt] := by
  simp [List.filter_append, hpt]

/-- Pushing a swing-high point classified against the stored previous swing
high preserves the high chain. -/
theorem chainHigh_push (stp : List SwingPoint) (prev : Option (ℚ × ℕ))
    (pt : SwingPoint) (hpt : pt.isHigh = true)
    (hty : pt.type = match prev with
      | none => SwingType.HH
      | some pr => if pr.1 < pt.price then SwingType.HH else SwingType.LH)
    (hH : chainHigh none (stp.filter fun p => p.isHigh))
    (hc : prev.map Prod.fst = chainCarry none (stp.filter fun p => p.isHigh)) :
    chainHigh none ((stp ++ [pt]).filter fun p => p.isHigh) := by
  rw [filter_high_append_high stp pt hpt, chainHigh_append_single]
  refine ⟨hH, ?_⟩
  rw [← hc, hty]
  cases prev <;> rfl

/-- Pushing a swing-low point classified against the stored previous swing
low preserves the low chain. -/
theorem chainLow_push (stp : List SwingPoint) (prev : Option (ℚ × ℕ))
    (pt : SwingPoint) (hpt : pt.isHigh = false)
    (hty : pt.type = match prev with
      | none => SwingType.HL
      | some pr => if pr.1 < pt.price then SwingType.HL else SwingType.LL)
    (hL : chainLow none (stp.filter fun p => !p.isHigh))
    (hc : prev.map Prod.fst = chainCarry none (stp.filter fun p => !p.isHigh)) :
    chainLow none ((stp ++ [pt]).filter fun p => !p.isHigh) := by
  rw [filter_low_append_low stp pt hpt, chainLow_append_single]
  refine ⟨hL, ?_⟩
  rw [← hc, hty]
  cases prev <;> rfl

/-- One scan step preserves the classification invariant: both chains hold
for the accumulated points, and the stored previous swing high/low price is
exactly the carry of the corresponding filtered run. -/
theorem swingStep_inv (data : List Candle) (lookback : ℕ) (st : SwingScanState)
    (i : ℕ)
    (hH : chainHigh none (st.points.filter fun p => p.isHigh))
    (hL : chainLow none (st.points.filter fun p => !p.isHigh))
    (hcH : st.previousSwingHigh.map Prod.fst =
      chainCarry none (st.points.filter fun p => p.isHigh))
    (hcL : st.previousSwingLow.map Prod.fst =
      chainCarry none (st.points.filter fun p => !p.isHigh)) :
    chainHigh none ((swingStep data lookback st i).points.filter fun p => p.isHigh) ∧
      chainLow none ((swingStep data lookback st i).points.filter fun p => !p.isHigh) ∧
      (swingStep data lookback st i).previousSwingHigh.map Prod.fst =
        chainCarry none ((swingStep data lookback st i).points.filter fun p => p.isHigh) ∧
      (swingStep data lookback st i).previousSwingLow.map Prod.fst =
        chainCarry none ((swingStep data lookback st i).points.filter fun p => !p.isHigh) := by
  by_cases hsh : isSwingHigh data i lookback
  · by_cases hsl : isSwingLow data i lookback
    · simp only [swingStep, hsh, hsl, ite_true]
      refine ⟨?_, ?_, ?_, ?_⟩
      · rw [filter_high_append_low _ _ rfl]
        exact chainHigh_push st.points st.previousSwingHigh _ rfl rfl hH hcH
      · refine chainLow_push (st.points ++ _) st.previousSwingLow _ rfl rfl ?_ ?_
        · rw [filter_low_append_high _ _ rfl]
          exact hL
        · rw [filter_low_append_high _ _ rfl]
          exact hcL
      · rw [filter_high_append_low _ _ rfl, filter_high_append_high _ _ rfl,
          chainCarry_append_single]
        rfl
      · rw [filter_low_append_low _ _ rfl, chainCarry_append_single]
        rfl
    · rw [Bool.not_eq_true] at hsl
      simp only [swingStep, hsh, hsl, ite_true, Bool.false_eq_true, ite_false]
      refine ⟨?_, ?_, ?_, ?_⟩
      · exact chainHigh_push st.points st.previousSwingHigh _ rfl rfl hH hcH
      · rw [filter_low_append_high _ _ rfl]
        exact hL
      · rw [filter_high_append_high _ _ rfl, chainCarry_append_single]
        rfl
      · rw [filter_low_append_high _ _ rfl]
        exact hcL
  · rw [Bool.not_eq_true] at hsh
    by_cases hsl : isSwingLow data i lookback
    · simp only [swingStep, hsh, hsl, ite_true, Bool.false_eq_true, ite_false]
      refine ⟨?_, ?_, ?_, ?_⟩
      · rw [filter_high_append_low _ _ rfl]
        exact hH
      · exact chainLow_push st.points st.previousSwingLow _ rfl rfl hL hcL
      · rw [filter_high_append_low _ _ rfl]
        exact hcH
      · rw [filter_low_append_low _ _ rfl, chainCarry_append_single]
        rfl
    · rw [Bool.not_eq_true] at hsl
      simp only [swingStep, hsh, hsl, Bool.false_eq_true, ite_false]
      exact ⟨hH, hL, hcH, hcL⟩

/-- C7 (amended): over the sequence of DETECTED swing points — the scan
result before sorting and duplicate-timestamp removal — the first swing high
is `HH` and each later one is `HH` exactly when strictly above the previous
swing high, else `LH`; swing lows independently satisfy the same rule with
`HL`/`LL`.  (After deduplication the rule can fail, because a dropped
duplicate still serves as comparison baseline: see the counterexample.) -/
theorem detect_classification_core (data : List Candle)
    (lookback analyzePeriod : ℕ) :
    chainHigh none
        ((detectSwingPointsCore data lookback analyzePeriod).filter fun p => p.isHigh) ∧
      chainLow none
        ((detectSwingPointsCore data lookback analyzePeriod).filter fun p => !p.isHigh) := by
  have main : ∀ (l : List ℕ) (st : SwingScanState),
      chainHigh none (st.points.filter fun p => p.isHigh) →
      chainLow none (st.points.filter fun p => !p.isHigh) →
      st.previousSwingHigh.map Prod.fst =
        chainCarry none (st.points.filter fun p => p.isHigh) →
      st.previousSwingLow.map Prod.fst =
        chainCarry none (st.points.filter fun p => !p.isHigh) →
      chainHigh none
          ((l.foldl (swingStep data lookback) st).points.filter fun p => p.isHigh) ∧
        chainLow none
          ((l.foldl (swingStep data lookback) st).points.filter fun p => !p.isHigh) := by
    intro l
    induction l with
    | nil => intro st h1 h2 _ _; exact ⟨h1, h2⟩
    | cons i is ih =>
      intro st h1 h2 h3 h4
      have h := swingStep_inv data lookback st i h1 h2 h3 h4
      exact ih _ h.1 h.2.1 h.2.2.1 h.2.2.2
  exact main _ ⟨none, none, []⟩ (by simp [chainHigh]) (by simp [chainLow])
    (by simp [chainCarry]) (by simp [chainCarry])

/-- C7 counterexample to the claim as stated (over the final output): on
`cexCandles` with `lookback = 1` the candle at index 1 is both a swing high
and a swing low; deduplication drops its low point (same timestamp as the
high), yet the dropped low remains the comparison baseline, so the FIRST
swing low in the output is classified `LL`, not `HL`. -/
theorem detect_classification_output_counterexample :
    detectSwingPoints cexCandles 1 5 =
        [⟨40, 1, .HH, 1, true⟩, ⟨1, 3, .LL, 3, false⟩] ∧
      ¬ chainLow none ((detectSwingPoints cexCandles 1 5).filter fun p => !p.isHigh) := by
  have h : detectSwingPoints cexCandles 1 5 =
      [⟨40, 1, .HH, 1, true⟩, ⟨1, 3, .LL, 3, false⟩] := by decide
  refine ⟨h, ?_⟩
  rw [h]
  simp [chainLow]

/-! ### C8 — volume conservation of the aggregation -/

/-- Unfolding `mapGet` over a cons cell. -/
theorem mapGet_cons (e : ℚ × PriceLevelVolume) (m : List (ℚ × PriceLevelVolume))
    (k : ℚ) : mapGet (e :: m) k = if e.1 = k then some e.2 else mapGet m k := by
  by_cases h : e.1 = k <;> simp [mapGet, List.find?_cons, h]

/-- Setting a key makes it readable. -/
theorem mapGet_set_self (m : List (ℚ × PriceLevelVolume)) (k : ℚ)
    (v : PriceLevelVolume) : mapGet (mapSet m k v) k = some v := by
  induction m with
  | nil => simp [mapSet, mapGet_cons]
  | cons e m ih =>
    by_cases h : e.1 = k <;> simp [mapSet, h, mapGet_cons, ih]

/-- Setting a different key does not disturb a lookup. -/
theorem mapGet_set_ne (m : List (ℚ × PriceLevelVolume)) (k' k : ℚ)
    (v : PriceLevelVolume) (h : k ≠ k') :
    mapGet (mapSet m k' v) k = mapGet m k := by
  have hne : ¬(k' = k) := fun he => h he.symm
  induction m with
  | nil => simp [mapSet, mapGet_cons, hne]
  | cons e m ih =>
    by_cases he : e.1 = k'
    · subst he
      simp [mapSet, mapGet_cons, fun hh => hne hh]
    · simp [mapSet, he, mapGet_cons, ih]

/-- Overwriting an existing key preserves which keys are present. -/
theorem mapGet_set_isSome (m : List (ℚ × PriceLevelVolume)) (k' k : ℚ)
    (w v : PriceLevelVolume) (hk' : mapGet m k' = some w) :
    (mapGet (mapSet m k' v) k).isSome = (mapGet m k).isSome := by
  by_cases h : k = k'
  · subst h
    simp [mapGet_set_self, hk']
  · rw [mapGet_set_ne m k' k v h]

/-- `applyTrade` in terms of `tradeKey` and `updateLevel`. -/
theorem applyTrade_eq (minPrice tickSize : ℚ) (m : List (ℚ × PriceLevelVolume))
    (tr : TradeData) :
    applyTrade minPrice tickSize m tr =
      match mapGet m (tradeKey minPrice tickSize tr) with
      | none => m
      | some level =>
        mapSet m (tradeKey minPrice tickSize tr) (updateLevel level tr) := rfl

/-- The bin update adds the trade's volume to the total. -/
theorem updateLevel_totalVolume (level : PriceLevelVolume) (tr : TradeData) :
    (updateLevel level tr).totalVolume = level.totalVolume + tr.volume := by
  unfold updateLevel
  by_cases hb : tr.side.toLower == "buy" <;> by_cases hm : tr.isMaker <;>
    simp [hb, hm]

/-- Writing to an existing key shifts the total by the volume delta. -/
theorem sumTot_set (m : List (ℚ × PriceLevelVolume)) (k : ℚ)
    (lvl v : PriceLevelVolume) (hget : mapGet m k = some lvl) :
    sumTot (mapSet m k v) = sumTot m - lvl.totalVolume + v.totalVolume := by
  induction m with
  | nil => simp [mapGet] at hget
  | cons e m ih =>
    rw [mapGet_cons] at hget
    by_cases h : e.1 = k
    · simp [h] at hget
      subst hget
      simp [mapSet, h, sumTot]
      ring
    · simp [h] at hget
      simp [mapSet, h, sumTot] at ih ⊢
      rw [ih hget]
      ring

/-- One trade adds exactly its volume to the total when its key is present,
and nothing otherwise. -/
theorem sumTot_applyTrade (minPrice tickSize : ℚ)
    (m : List (ℚ × PriceLevelVolume)) (tr : TradeData) :
    sumTot (applyTrade minPrice tickSize m tr) =
      sumTot m +
        (if (mapGet m (tradeKey minPrice tickSize tr)).isSome then tr.volume else 0) := by
  rw [applyTrade_eq]
  cases hget : mapGet m (tradeKey minPrice tickSize tr) with
  | none => simp
  | some lvl =>
    simp only [Option.isSome_some, if_true]
    rw [sumTot_set m _ lvl _ hget, updateLevel_totalVolume]
    ring

/-- A trade never changes which keys are present. -/
theorem applyTrade_get_isSome (minPrice tickSize : ℚ)
    (m : List (ℚ × PriceLevelVolume)) (tr : TradeData) (k : ℚ) :
    (mapGet (applyTrade minPrice tickSize m tr) k).isSome = (mapGet m k).isSome := by
  rw [applyTrade_eq]
  cases hget : mapGet m (tradeKey minPrice tickSize tr) with
  | none => rfl
  | some lvl => exact mapGet_set_isSome m _ k lvl _ hget

/-- Exact volume accounting for the aggregation fold: the final total is the
initial total plus the volume of every trade whose key is present in the
initial map (presence is invariant under the fold). -/
theorem sumTot_foldl_applyTrade (minPrice tickSize : ℚ) :
    ∀ (trades : List TradeData) (m : List (ℚ × PriceLevelVolume)),
      sumTot (trades.foldl (applyTrade minPrice tickSize) m) =
        sumTot m + (trades.map fun tr =>
          if (mapGet m (tradeKey minPrice tickSize tr)).isSome then tr.volume
          else 0).sum := by
  intro trades
  induction trades with
  | nil => intro m; simp
  | cons tr ts ih =>
    intro m
    rw [List.foldl_cons, ih (applyTrade minPrice tickSize m tr)]
    simp only [applyTrade_get_isSome, sumTot_applyTrade, List.map_cons, List.sum_cons]
    ring

/-- A present key stays present under any later write. -/
theorem mapGet_set_isSome_mono (m : List (ℚ × PriceLevelVolume)) (k' k : ℚ)
    (v : PriceLevelVolume) (h : (mapGet m k).isSome = true) :
    (mapGet (mapSet m k' v) k).isSome = true := by
  by_cases he : k = k'
  · subst he
    simp [mapGet_set_self]
  · rw [mapGet_set_ne m k' k v he]
    exact h

/-- A present key stays present through the whole initialisation fold. -/
theorem mapGet_initFold_mono (minPrice tickSize : ℚ) :
    ∀ (is : List ℕ) (m : List (ℚ × PriceLevelVolume)) (k : ℚ),
      (mapGet m k).isSome = true →
      (mapGet (is.foldl (fun m i =>
        mapSet m (minPrice + (i : ℚ) * tickSize)
          (emptyLevel (minPrice + (i : ℚ) * tickSize))) m) k).isSome = true := by
  intro is
  induction is with
  | nil => intro m k h; exact h
  | cons i is ih =>
    intro m k h
    exact ih _ k (mapGet_set_isSome_mono m _ k _ h)

/-- Every grid index written by the initialisation loop is present
afterwards. -/
theorem mapGet_initFold_present (minPrice tickSize : ℚ) :
    ∀ (is : List ℕ) (m : List (ℚ × PriceLevelVolume)) (i : ℕ), i ∈ is →
      (mapGet (is.foldl (fun m i =>
        mapSet m (minPrice + (i : ℚ) * tickSize)
          (emptyLevel (minPrice + (i : ℚ) * tickSize))) m)
        (minPrice + (i : ℚ) * tickSize)).isSome = true := by
  intro is
  induction is with
  | nil => intro m i h; simp at h
  | cons j js ih =>
    intro m i h
    rcases List.mem_cons.mp h with rfl | h
    · exact mapGet_initFold_mono minPrice tickSize js _ _ (by simp [mapGet_set_self])
    · exact ih _ i h

/-- A key distinct from every written grid key stays absent. -/
theorem mapGet_initFold_absent (minPrice tickSize : ℚ) :
    ∀ (is : List ℕ) (m : List (ℚ × PriceLevelVolume)) (k : ℚ),
      (∀ i ∈ is, minPrice + (i : ℚ) * tickSize ≠ k) →
      mapGet m k = none →
      mapGet (is.foldl (fun m i =>
        mapSet m (minPrice + (i : ℚ) * tickSize)
          (emptyLevel (minPrice + (i : ℚ) * tickSize))) m) k = none := by
  intro is
  induction is with
  | nil => intro m k _ h; exact h
  | cons j js ih =>
    intro m k hne h
    refine ih _ k (fun i hi => hne i (by simp [hi])) ?_
    rw [mapGet_set_ne _ _ _ _ fun he => hne j (by simp) (by rw [he])]
    exact h

/-- Every entry of a written map is an old entry or the written pair. -/
theorem mapSet_mem (m : List (ℚ × PriceLevelVolume)) (k : ℚ)
    (v : PriceLevelVolume) :
    ∀ e ∈ mapSet m k v, e ∈ m ∨ e = (k, v) := by
  induction m with
  | nil => intro e he; simp [mapSet] at he; simp [he]
  | cons f m ih =>
    intro e he
    by_cases h : f.1 = k
    · simp [mapSet, h] at he
      rcases he with he | he
      · right; simp [he]
      · left; simp [he]
    · simp [mapSet, h] at he
      rcases he with he | he
      · left; simp [he]
      · rcases ih e he with h1 | h1
        · left; simp [h1]
        · right; exact h1

/-- A successful lookup returns one of the map's values. -/
theorem mapGet_mem (m : List (ℚ × PriceLevelVolume)) (k : ℚ)
    (lvl : PriceLevelVolume) (h : mapGet m k = some lvl) :
    ∃ k', (k', lvl) ∈ m := by
  induction m with
  | nil => simp [mapGet] at h
  | cons e m ih =>
    rw [mapGet_cons] at h
    by_cases he : e.1 = k
    · simp [he] at h
      exact ⟨e.1, by simp [← h]⟩
    · simp [he] at h
      rcases ih h with ⟨k', hk'⟩
      exact ⟨k', by simp [hk']⟩

/-- All bin totals stay nonnegative through the trade fold (volumes being
nonnegative). -/
theorem foldl_applyTrade_nonneg (minPrice tickSize : ℚ) :
    ∀ (trades : List TradeData) (m : List (ℚ × PriceLevelVolume)),
      (∀ tr ∈ trades, 0 ≤ tr.volume) →
      (∀ e ∈ m, 0 ≤ e.2.totalVolume) →
      ∀ e ∈ trades.foldl (applyTrade minPrice tickSize) m, 0 ≤ e.2.totalVolume := by
  intro trades
  induction trades with
  | nil => intro m _ hm; exact hm
  | cons tr ts ih =>
    intro m hvol hm
    refine ih _ (fun t ht => hvol t (by simp [ht])) ?_
    rw [applyTrade_eq]
    cases hget : mapGet m (tradeKey minPrice tickSize tr) with
    | none => exact hm
    | some lvl =>
      intro e he
      rcases mapSet_mem m _ _ e he with h1 | h1
      · exact hm e h1
      · have hlvl : 0 ≤ lvl.totalVolume := by
          rcases mapGet_mem m _ lvl hget with ⟨k', hk'⟩
          exact hm (k', lvl) hk'
        have : 0 ≤ tr.volume := hvol tr (by simp)
        rw [h1]
        simp [updateLevel_totalVolume]
        linarith

/-- The initialisation fold only ever holds zero totals. -/
theorem initFold_zero (minPrice tickSize : ℚ) :
    ∀ (is : List ℕ) (m : List (ℚ × PriceLevelVolume)),
      (∀ e ∈ m, e.2.totalVolume = 0) →
      ∀ e ∈ is.foldl (fun m i =>
        mapSet m (minPrice + (i : ℚ) * tickSize)
          (emptyLevel (minPrice + (i : ℚ) * tickSize))) m, e.2.totalVolume = 0 := by
  intro is
  induction is with
  | nil => intro m hm; exact hm
  | cons j js ih =>
    intro m hm
    refine ih _ ?_
    intro e he
    rcases mapSet_mem m _ _ e he with h1 | h1
    · exact hm e h1
    · rw [h1]
      rfl

/-- Dropping the zero-volume bins does not change the total (all totals
nonnegative). -/
theorem filter_positive_sum (vals : List PriceLevelVolume)
    (h : ∀ v ∈ vals, 0 ≤ v.totalVolume) :
    ((vals.filter fun l => decide (0 < l.totalVolume)).map
      fun l => l.totalVolume).sum = (vals.map fun l => l.totalVolume).sum := by
  induction vals with
  | nil => rfl
  | cons v vs ih =>
    have hv := h v (by simp)
    have ihh := ih fun w hw => h w (by simp [hw])
    by_cases hp : 0 < v.totalVolume
    · simp [List.filter_cons, hp, ihh]
    · have hz : v.totalVolume = 0 := le_antisymm (not_lt.mp hp) hv
      simp [List.filter_cons, hp, ihh, hz]

/-- A zero-total map sums to zero. -/
theorem sumTot_zero (m : List (ℚ × PriceLevelVolume))
    (h : ∀ e ∈ m, e.2.totalVolume = 0) : sumTot m = 0 := by
  rw [sumTot]
  apply List.sum_eq_zero
  intro x hx
  rcases List.mem_map.mp hx with ⟨e, he, rfl⟩
  exact h e he

/-- A price within `[min, max]` rounds to a grid index within
`[0, ⌈(max − min)/tick⌉]`. -/
theorem jsRound_range (p minP maxP t : ℚ) (ht : 0 < t) (h1 : minP ≤ p)
    (h2 : p ≤ maxP) :
    0 ≤ jsRound ((p - minP) / t) ∧
      jsRound ((p - minP) / t) ≤ ⌈(maxP - minP) / t⌉ := by
  have hx : 0 ≤ (p - minP) / t := div_nonneg (by linarith) ht.le
  have hxy : (p - minP) / t ≤ (maxP - minP) / t :=
    (div_le_div_right ht).mpr (by linarith)
  constructor
  · rw [jsRound]
    apply Int.le_floor.mpr
    push_cast
    linarith
  · rw [jsRound]
    have hy : (p - minP) / t ≤ ((⌈(maxP - minP) / t⌉ : ℤ) : ℚ) :=
      le_trans hxy (Int.le_ceil _)
    have hlt : ⌊(p - minP) / t + 1 / 2⌋ < ⌈(maxP - minP) / t⌉ + 1 := by
      apply Int.floor_lt.mpr
      push_cast
      linarith
    omega

/-- C8 (amended): with a positive tick size, every trade priced inside
`[min, max]` and nonnegative volumes, the aggregation conserves volume: the
bin totals sum exactly to the input volumes.  (A configured price range that
excludes some trade breaks this: the trade's rounded grid key misses the
initialised map and the trade is silently dropped — see the
counterexample.) -/
theorem aggregate_preserves_volume (trades : List TradeData) (minP maxP t : ℚ)
    (ht : 0 < t)
    (hrange : ∀ tr ∈ trades, minP ≤ tr.price ∧ tr.price ≤ maxP)
    (hvol : ∀ tr ∈ trades, 0 ≤ tr.volume) :
    ((aggregateVolumeByPrice trades minP maxP t).map fun l => l.totalVolume).sum
      = (trades.map fun tr => tr.volume).sum := by
  classical
  set numLevels : ℤ := ⌈(maxP - minP) / t⌉ with hnl
  set initial := initLevels minP t numLevels with hinit
  set final := trades.foldl (applyTrade minP t) initial with hfinal
  have hinit_zero : ∀ e ∈ initial, e.2.totalVolume = 0 := by
    rw [hinit, initLevels]
    split
    · intro e he; simp at he
    · exact initFold_zero minP t _ [] (by simp)
  have hfinal_nonneg : ∀ e ∈ final, 0 ≤ e.2.totalVolume :=
    foldl_applyTrade_nonneg minP t trades initial hvol
      (fun e he => le_of_eq (hinit_zero e he).symm)
  have hvals_nonneg : ∀ v ∈ final.map Prod.snd, 0 ≤ v.totalVolume := by
    intro v hv
    rcases List.mem_map.mp hv with ⟨e, he, rfl⟩
    exact hfinal_nonneg e he
  have h1 : ((aggregateVolumeByPrice trades minP maxP t).map
      fun l => l.totalVolume).sum = sumTot final := by
    rw [aggregateVolumeByPrice]
    rw [filter_positive_sum _ hvals_nonneg]
    simp [sumTot, List.map_map]
    rfl
  have hpresent : ∀ tr ∈ trades,
      (mapGet initial (tradeKey minP t tr)).isSome = true := by
    intro tr htr
    have hr := jsRound_range tr.price minP maxP t ht (hrange tr htr).1 (hrange tr htr).2
    set z : ℤ := jsRound ((tr.price - minP) / t) with hz
    have hz0 : 0 ≤ z := hr.1
    have hznl : z ≤ numLevels := hr.2
    have hnl0 : ¬ numLevels < 0 := by omega
    have hcast : ((z.toNat : ℕ) : ℚ) = (z : ℚ) := by
      exact_mod_cast congrArg (fun a : ℤ => (a : ℚ)) (Int.toNat_of_nonneg hz0)
    have hkey : tradeKey minP t tr = minP + ((z.toNat : ℕ) : ℚ) * t := by
      rw [tradeKey, ← hz, hcast]
    have hmem : z.toNat ∈ List.range (numLevels.toNat + 1) := by
      apply List.mem_range.mpr
      omega
    rw [hinit, initLevels, if_neg hnl0, hkey]
    exact mapGet_initFold_present minP t _ [] z.toNat hmem
  have h2 : sumTot final = sumTot initial + (trades.map fun tr => tr.volume).sum := by
    rw [hfinal, sumTot_foldl_applyTrade]
    congr 1
    congr 1
    apply List.map_congr_left
    intro tr htr
    rw [hpresent tr htr]
    simp
  rw [h1, h2, sumTot_zero initial hinit_zero, zero_add]

/-- C8 witness: the amended conservation at two in-range trades with tick
size 2 on `[0, 10]`. -/
theorem aggregate_preserves_volume_witness :
    ((0 : ℚ) < 2 ∧
        (∀ tr ∈ ([⟨5, 1, 0, "buy", false⟩, ⟨7, 2, 1, "sell", false⟩] : List TradeData),
          (0 : ℚ) ≤ tr.price ∧ tr.price ≤ 10) ∧
        ∀ tr ∈ ([⟨5, 1, 0, "buy", false⟩, ⟨7, 2, 1, "sell", false⟩] : List TradeData),
          (0 : ℚ) ≤ tr.volume) ∧
      ((aggregateVolumeByPrice [⟨5, 1, 0, "buy", false⟩, ⟨7, 2, 1, "sell", false⟩]
          0 10 2).map fun l => l.totalVolume).sum
        = (([⟨5, 1, 0, "buy", false⟩, ⟨7, 2, 1, "sell", false⟩] : List TradeData).map
            fun tr => tr.volume).sum := by
  have hra : ∀ tr ∈ ([⟨5, 1, 0, "buy", false⟩, ⟨7, 2, 1, "sell", false⟩] : List TradeData),
      (0 : ℚ) ≤ tr.price ∧ tr.price ≤ 10 := by
    intro tr htr
    simp only [List.mem_cons, List.not_mem_nil, or_false] at htr
    rcases htr with rfl | rfl <;> norm_num
  have hva : ∀ tr ∈ ([⟨5, 1, 0, "buy", false⟩, ⟨7, 2, 1, "sell", false⟩] : List TradeData),
      (0 : ℚ) ≤ tr.volume := by
    intro tr htr
    simp only [List.mem_cons, List.not_mem_nil, or_false] at htr
    rcases htr with rfl | rfl <;> norm_num
  exact ⟨⟨by norm_num, hra, hva⟩,
    aggregate_preserves_volume _ 0 10 2 (by norm_num) hra hva⟩

/-- Sorting does not change a mapped sum. -/
theorem insSortBy_map_sum (le : α → α → Bool) (f : α → ℚ) (l : List α) :
    ((insSortBy le l).map f).sum = (l.map f).sum :=
  List.Perm.sum_eq (List.Perm.map f (insSortBy_perm le l))

/-- C8 counterexample to the claim as stated: under `cexConfig` (price range
`[0, 10]`, five levels, hence tick `2`) the trade at price 100 rounds to grid
key 100, which the initialised map does not contain, so `map.get` misses and
the trade is silently dropped: the profile total is 1 while the input
volumes sum to 2. -/
theorem aggregate_drops_trade_counterexample :
    profileVolSum (processTradeData cexTrades cexConfig) = 1 ∧
      (cexTrades.map fun tr => tr.volume).sum = 2 ∧
      profileVolSum (processTradeData cexTrades cexConfig) ≠
        (cexTrades.map fun tr => tr.volume).sum := by
  have ht1key : tradeKey 0 2 ⟨5, 1, 0, "buy", false⟩ = 6 := by
    rw [tradeKey, jsRound]; norm_num
  have ht2key : tradeKey 0 2 ⟨100, 1, 1, "sell", false⟩ = 100 := by
    rw [tradeKey, jsRound]; norm_num
  have hpresent1 : (mapGet (initLevels 0 2 5) 6).isSome = true := by
    rw [initLevels, if_neg (by norm_num)]
    have h3 : (3 : ℕ) ∈ List.range (Int.toNat 5 + 1) := by decide
    have h := mapGet_initFold_present 0 2 (List.range (Int.toNat 5 + 1)) [] 3 h3
    have he : (0 : ℚ) + (3 : ℕ) * 2 = 6 := by norm_num
    rw [he] at h
    exact h
  have habsent2 : mapGet (initLevels 0 2 5) 100 = none := by
    rw [initLevels, if_neg (by norm_num)]
    apply mapGet_initFold_absent
    · intro i hi
      have hlt : i < 6 := by simpa using List.mem_range.mp hi
      have hle : (i : ℚ) ≤ 5 := by exact_mod_cast Nat.lt_succ_iff.mp hlt
      intro he
      nlinarith
    · rfl
  have hinit_zero : ∀ e ∈ initLevels 0 2 5, e.2.totalVolume = 0 := by
    rw [initLevels, if_neg (by norm_num)]
    exact initFold_zero 0 2 _ [] (by simp)
  have hsum : sumTot (([⟨5, 1, 0, "buy", false⟩, ⟨100, 1, 1, "sell", false⟩] :
      List TradeData).foldl (applyTrade 0 2) (initLevels 0 2 5)) = 1 := by
    rw [sumTot_foldl_applyTrade, sumTot_zero _ hinit_zero]
    rw [List.map_cons, List.map_cons, List.map_nil, ht1key, ht2key, hpresent1, habsent2]
    norm_num
  have hfinal_nonneg : ∀ e ∈ ([⟨5, 1, 0, "buy", false⟩, ⟨100, 1, 1, "sell", false⟩] :
      List TradeData).foldl (applyTrade 0 2) (initLevels 0 2 5),
      0 ≤ e.2.totalVolume := by
    apply foldl_applyTrade_nonneg
    · intro tr htr
      simp only [List.mem_cons, List.not_mem_nil, or_false] at htr
      rcases htr with rfl | rfl <;> norm_num
    · exact fun e he => le_of_eq (hinit_zero e he).symm
  have hagg : ((aggregateVolumeByPrice
      [⟨5, 1, 0, "buy", false⟩, ⟨100, 1, 1, "sell", false⟩] 0 10 2).map
        fun l => l.totalVolume).sum = 1 := by
    rw [aggregateVolumeByPrice]
    rw [show (⌈((10:ℚ) - 0) / 2⌉ : ℤ) = 5 from by norm_num]
    rw [filter_positive_sum]
    · rw [show ((List.map Prod.snd
          (([⟨5, 1, 0, "buy", false⟩, ⟨100, 1, 1, "sell", false⟩] :
            List TradeData).foldl (applyTrade 0 2) (initLevels 0 2 5))).map
          fun l => l.totalVolume).sum
        = sumTot (([⟨5, 1, 0, "buy", false⟩, ⟨100, 1, 1, "sell", false⟩] :
            List TradeData).foldl (applyTrade 0 2) (initLevels 0 2 5)) from by
          rw [sumTot, List.map_map]; rfl]
      exact hsum
    · intro v hv
      rcases List.mem_map.mp hv with ⟨e, he, rfl⟩
      exact hfinal_nonneg e he
  have hmain : profileVolSum (processTradeData cexTrades cexConfig) = 1 := by
    show profileVolSum (processTradeData
      [⟨5, 1, 0, "buy", false⟩, ⟨100, 1, 1, "sell", false⟩]
      ⟨some ⟨0, 10⟩, some 5, none⟩) = 1
    rw [processTradeData]
    norm_num [insSortBy, insSortIns, profileVolSum]
    rw [insSortBy_map_sum, List.map_map]
    simpa using hagg
  have hin : (cexTrades.map fun tr => tr.volume).sum = 2 := by
    rw [show cexTrades = [⟨5, 1, 0, "buy", false⟩, ⟨100, 1, 1, "sell", false⟩] from rfl]
    norm_num
  refine ⟨hmain, hin, ?_⟩
  rw [hmain, hin]
  norm_num

/-! ### C9 — value-area expansion -/

/-- A one-bin range sums to that bin's volume. -/
theorem vaSumRange_single (profile : List VolumeProfileDataPoint) (i : ℕ) :
    vaSumRange profile i i = vaVol profile i := by
  simp [vaSumRange]

/-- Extending the range one bin downward. -/
theorem vaSumRange_low_expand (profile : List VolumeProfileDataPoint)
    (lo hi : ℕ) (h1 : 1 ≤ lo) (h2 : lo ≤ hi) :
    vaSumRange profile (lo - 1) hi =
      vaVol profile (lo - 1) + vaSumRange profile lo hi := by
  rw [vaSumRange, vaSumRange]
  have hins : Finset.Icc (lo - 1) hi = insert (lo - 1) (Finset.Icc lo hi) := by
    ext x
    simp only [Finset.mem_Icc, Finset.mem_insert]
    omega
  rw [hins, Finset.sum_insert (by simp only [Finset.mem_Icc]; omega)]

/-- Extending the range one bin upward. -/
theorem vaSumRange_high_expand (profile : List VolumeProfileDataPoint)
    (lo hi : ℕ) (h : lo ≤ hi + 1) :
    vaSumRange profile lo (hi + 1) =
      vaSumRange profile lo hi + vaVol profile (hi + 1) := by
  rw [vaSumRange, vaSumRange, Finset.sum_Icc_succ_top h]

/-- In-range bins of an everywhere-positive profile have positive volume. -/
theorem vaVol_pos (profile : List VolumeProfileDataPoint)
    (hpos : ∀ b ∈ profile, 0 < b.vol) (i : ℕ) (hi : i < profile.length) :
    0 < vaVol profile i := by
  rw [vaVol, List.getD_eq_getElem profile dfltPoint hi]
  exact hpos _ (List.getElem_mem hi)

/-- Invariant of the value-area expansion loop: starting from a valid range
whose accumulated volume is exactly its bin sum, with enough fuel and
positive bin volumes, the loop only widens the range, stays inside the
profile, and stops either with the target reached or at the full range. -/
theorem vaLoop_spec (profile : List VolumeProfileDataPoint) (target : ℚ)
    (hpos : ∀ b ∈ profile, 0 < b.vol) :
    ∀ (fuel lo hi : ℕ) (acc : ℚ),
      hi < profile.length → lo ≤ hi →
      acc = vaSumRange profile lo hi →
      profile.length - (hi - lo + 1) < fuel →
      (vaLoop profile target fuel lo hi acc).1 ≤ lo ∧
        hi ≤ (vaLoop profile target fuel lo hi acc).2 ∧
        (vaLoop profile target fuel lo hi acc).2 < profile.length ∧
        (target ≤ vaSumRange profile (vaLoop profile target fuel lo hi acc).1
            (vaLoop profile target fuel lo hi acc).2 ∨
          ((vaLoop profile target fuel lo hi acc).1 = 0 ∧
            (vaLoop profile target fuel lo hi acc).2 = profile.length - 1)) := by
  intro fuel
  induction fuel with
  | zero => intro lo hi acc h1 h2 h3 h4; omega
  | succ fuel ih =>
    intro lo hi acc h1 h2 h3 h4
    rw [vaLoop]
    dsimp only
    by_cases hacc : acc < target
    case neg =>
      rw [if_neg hacc]
      exact ⟨le_refl _, le_refl _, h1, Or.inl (h3 ▸ le_of_not_lt hacc)⟩
    rw [if_pos hacc]
    by_cases hstop : ¬(0 < lo) ∧ ¬(hi < profile.length - 1)
    case pos =>
      rw [if_pos hstop]
      exact ⟨le_refl _, le_refl _, h1, Or.inr ⟨by omega, by omega⟩⟩
    rw [if_neg hstop]
    by_cases hlo : 0 < lo <;> by_cases hhi : hi < profile.length - 1
    · rw [if_pos hlo, if_pos hhi]
      by_cases hcmp : vaVol profile (hi + 1) < vaVol profile (lo - 1) ∧ 0 < lo
      · rw [if_pos hcmp]
        have hrec := ih (lo - 1) hi (acc + vaVol profile (lo - 1)) h1 (by omega)
          (by rw [h3, vaSumRange_low_expand profile lo hi (by omega) h2]; ring)
          (by omega)
        exact ⟨le_trans hrec.1 (by omega), hrec.2.1, hrec.2.2.1, hrec.2.2.2⟩
      · rw [if_neg hcmp, if_pos hhi]
        have hrec := ih lo (hi + 1) (acc + vaVol profile (hi + 1)) (by omega) (by omega)
          (by rw [h3, vaSumRange_high_expand profile lo hi (by omega)])
          (by omega)
        exact ⟨hrec.1, le_trans (by omega) hrec.2.1, hrec.2.2.1, hrec.2.2.2⟩
    · rw [if_pos hlo, if_neg hhi]
      have hlowpos := vaVol_pos profile hpos (lo - 1) (by omega)
      rw [if_pos (⟨hlowpos, hlo⟩ : (0:ℚ) < vaVol profile (lo - 1) ∧ 0 < lo)]
      have hrec := ih (lo - 1) hi (acc + vaVol profile (lo - 1)) h1 (by omega)
        (by rw [h3, vaSumRange_low_expand profile lo hi (by omega) h2]; ring)
        (by omega)
      exact ⟨le_trans hrec.1 (by omega), hrec.2.1, hrec.2.2.1, hrec.2.2.2⟩
    · rw [if_neg hlo, if_pos hhi]
      rw [if_neg (fun hc => hlo hc.2), if_pos hhi]
      have hrec := ih lo (hi + 1) (acc + vaVol profile (hi + 1)) (by omega) (by omega)
        (by rw [h3, vaSumRange_high_expand profile lo hi (by omega)])
        (by omega)
      exact ⟨hrec.1, le_trans (by omega) hrec.2.1, hrec.2.2.1, hrec.2.2.2⟩
    · exact absurd ⟨hlo, hhi⟩ hstop

/-- A satisfied predicate makes `findIdx?` succeed. -/
theorem findIdx?_of_exists {p : VolumeProfileDataPoint → Bool} :
    ∀ {l : List VolumeProfileDataPoint}, (∃ x ∈ l, p x = true) →
      ∃ i, l.findIdx? p = some i := by
  intro l
  induction l with
  | nil => intro h; simp at h
  | cons x xs ih =>
    intro h
    by_cases hx : p x
    · exact ⟨0, by simp [List.findIdx?_cons, hx]⟩
    · rcases h with ⟨y, hy, hpy⟩
      rcases List.mem_cons.mp hy with rfl | hy
      · exact absurd hpy hx
      · rcases ih ⟨y, hy, hpy⟩ with ⟨i, hi⟩
        exact ⟨i + 1, by simp [List.findIdx?_cons, hx, hi]⟩

/-- A found index is in range. -/
theorem findIdx?_lt_length {p : VolumeProfileDataPoint → Bool} :
    ∀ {l : List VolumeProfileDataPoint} {i : ℕ}, l.findIdx? p = some i →
      i < l.length := by
  intro l
  induction l with
  | nil => intro i h; simp at h
  | cons x xs ih =>
    intro i h
    by_cases hx : p x
    · simp [List.findIdx?_cons, hx] at h
      simp only [List.length_cons]
      omega
    · simp [List.findIdx?_cons, hx] at h
      rcases h with ⟨j, hj, rfl⟩
      have := ih hj
      simpa using Nat.succ_lt_succ this

/-- The element at a found index satisfies the predicate. -/
theorem findIdx?_found {p : VolumeProfileDataPoint → Bool} :
    ∀ {l : List VolumeProfileDataPoint} {i : ℕ}, l.findIdx? p = some i →
      p (l.getD i dfltPoint) = true := by
  intro l
  induction l with
  | nil => intro i h; simp at h
  | cons x xs ih =>
    intro i h
    by_cases hx : p x
    · simp [List.findIdx?_cons, hx] at h
      simp [← h, hx]
    · simp [List.findIdx?_cons, hx] at h
      rcases h with ⟨j, hj, rfl⟩
      simpa using ih hj

/-- The point of control is the price of one of the profile's bins. -/
theorem calculatePOC_mem (h : VolumeProfileDataPoint)
    (t : List VolumeProfileDataPoint) :
    ∃ b ∈ h :: t, calculatePOC (h :: t) = some b.price := by
  rw [calculatePOC]
  suffices hs : ∀ (l : List VolumeProfileDataPoint) (a : VolumeProfileDataPoint),
      (l.foldl (fun mx point => if mx.vol < point.vol then point else mx) a) = a ∨
      (l.foldl (fun mx point => if mx.vol < point.vol then point else mx) a) ∈ l by
    rcases hs t h with hcase | hcase
    · exact ⟨h, by simp, by rw [hcase]⟩
    · exact ⟨t.foldl (fun mx point => if mx.vol < point.vol then point else mx) h,
        List.mem_cons_of_mem h hcase, rfl⟩
  intro l
  induction l with
  | nil => intro a; left; rfl
  | cons x xs ih =>
    intro a
    rw [List.foldl_cons]
    rcases ih (if a.vol < x.vol then x else a) with hcase | hcase
    · rw [hcase]
      by_cases hv : a.vol < x.vol
      · right; simp [hv]
      · left; simp [hv]
    · right; simp [hcase]

/-- A mapped list sum as a `Finset.range` sum over positions. -/
theorem list_map_sum_eq_range (f : VolumeProfileDataPoint → ℚ) :
    ∀ l : List VolumeProfileDataPoint,
      (l.map f).sum = ∑ i in Finset.range l.length, f (l.getD i dfltPoint) := by
  intro l
  induction l with
  | nil => simp
  | cons x xs ih =>
    rw [List.map_cons, List.sum_cons, ih, List.length_cons, Finset.sum_range_succ']
    simp [List.getD_cons_succ, List.getD_cons_zero]
    ring

/-- The full index range sums to the whole profile's volume. -/
theorem vaSumRange_total (profile : List VolumeProfileDataPoint)
    (h : profile ≠ []) :
    vaSumRange profile 0 (profile.length - 1) = (profile.map fun b => b.vol).sum := by
  have hlen : 1 ≤ profile.length := by
    cases profile with
    | nil => exact absurd rfl h
    | cons x xs => simp [List.length_cons]
  rw [vaSumRange, list_map_sum_eq_range]
  apply Finset.sum_congr
  · ext x
    simp only [Finset.mem_Icc, Finset.mem_range]
    omega
  · intro x _
    rfl

/-- C9 (amended): on empty input `calculateValueArea` returns `null`; on a
nonempty profile with positive bin volumes and a target fraction in `(0, 1]`,
it returns the prices of a contiguous index range `[lo, hi]` that contains
the point-of-control bin, whose accumulated volume reaches
`percentage × totalVolume`.  The range need NOT be tight: removing a
non-POC boundary bin can leave the accumulated volume at or above the
threshold (see the counterexample), so the tightness conjunct of the
original claim is dropped. -/
theorem calculateValueArea_spec (profile : List VolumeProfileDataPoint)
    (percentage : ℚ) (hne : profile ≠ [])
    (hpos : ∀ b ∈ profile, 0 < b.vol)
    (hp0 : 0 < percentage) (hp1 : percentage ≤ 1) :
    calculateValueArea [] percentage = none ∧
      ∃ lo hi : ℕ, lo ≤ hi ∧ hi < profile.length ∧
        calculateValueArea profile percentage =
          some ⟨(profile.getD lo dfltPoint).price, (profile.getD hi dfltPoint).price⟩ ∧
        (∃ pocIdx : ℕ, lo ≤ pocIdx ∧ pocIdx ≤ hi ∧
          calculatePOC profile = some (profile.getD pocIdx dfltPoint).price) ∧
        percentage * (profile.map fun b => b.vol).sum ≤ vaSumRange profile lo hi := by
  refine ⟨rfl, ?_⟩
  obtain ⟨h0, t0, rfl⟩ : ∃ h t, profile = h :: t := by
    cases profile with
    | nil => exact absurd rfl hne
    | cons x xs => exact ⟨x, xs, rfl⟩
  obtain ⟨b, hbmem, hpoc⟩ := calculatePOC_mem h0 t0
  obtain ⟨pocIdx, hfind⟩ :=
    findIdx?_of_exists (p := fun point => decide (point.price = b.price))
      ⟨b, hbmem, by simp⟩
  have hplen : pocIdx < (h0 :: t0).length := findIdx?_lt_length hfind
  have hpprice : ((h0 :: t0).getD pocIdx dfltPoint).price = b.price := by
    have := findIdx?_found hfind
    simpa using this
  have htotpos : 0 ≤ ((h0 :: t0).map fun b => b.vol).sum := by
    apply List.sum_nonneg
    intro x hx
    rcases List.mem_map.mp hx with ⟨y, hy, rfl⟩
    exact le_of_lt (hpos y hy)
  have hspec := vaLoop_spec (h0 :: t0)
    ((((h0 :: t0).map fun p => p.vol).sum) * percentage) hpos
    (h0 :: t0).length pocIdx pocIdx (vaVol (h0 :: t0) pocIdx)
    hplen (le_refl _) (by rw [vaSumRange_single])
    (by simp only [List.length_cons]; omega)
  set r := vaLoop (h0 :: t0) ((((h0 :: t0).map fun p => p.vol).sum) * percentage)
    (h0 :: t0).length pocIdx pocIdx (vaVol (h0 :: t0) pocIdx) with hr
  refine ⟨r.1, r.2, le_trans hspec.1 (le_trans (le_refl _) hspec.2.1),
    hspec.2.2.1, ?_, ?_, ?_⟩
  · rw [calculateValueArea, hpoc]
    simp only [hfind]
  · exact ⟨pocIdx, hspec.1, hspec.2.1, by rw [hpoc, hpprice]⟩
  · rcases hspec.2.2.2 with hcase | hcase
    · calc percentage * (((h0 :: t0).map fun b => b.vol).sum)
          = (((h0 :: t0).map fun p => p.vol).sum) * percentage := by ring
        _ ≤ vaSumRange (h0 :: t0) r.1 r.2 := hcase
    · rw [hcase.1, hcase.2, vaSumRange_total _ (by simp)]
      nlinarith

/-- C9 witness: the amended statement at the concrete five-bin profile with
target fraction `7/10`. -/
theorem calculateValueArea_spec_witness :
    (cexProfile ≠ [] ∧ (∀ b ∈ cexProfile, (0:ℚ) < b.vol) ∧
        (0:ℚ) < 7 / 10 ∧ (7:ℚ) / 10 ≤ 1) ∧
      (calculateValueArea [] (7 / 10) = none ∧
        ∃ lo hi : ℕ, lo ≤ hi ∧ hi < cexProfile.length ∧
          calculateValueArea cexProfile (7 / 10) =
            some ⟨(cexProfile.getD lo dfltPoint).price,
              (cexProfile.getD hi dfltPoint).price⟩ ∧
          (∃ pocIdx : ℕ, lo ≤ pocIdx ∧ pocIdx ≤ hi ∧
            calculatePOC cexProfile =
              some (cexProfile.getD pocIdx dfltPoint).price) ∧
          (7:ℚ) / 10 * (cexProfile.map fun b => b.vol).sum ≤
            vaSumRange cexProfile lo hi) := by
  have hpos : ∀ b ∈ cexProfile, (0:ℚ) < b.vol := by
    intro b hb
    simp only [cexProfile, List.mem_cons, List.not_mem_nil, or_false] at hb
    rcases hb with rfl | rfl | rfl | rfl | rfl <;> norm_num
  exact ⟨⟨by simp [cexProfile], hpos, by norm_num, by norm_num⟩,
    calculateValueArea_spec cexProfile (7 / 10) (by simp [cexProfile]) hpos
      (by norm_num) (by norm_num)⟩

/-- C9 counterexample to the claim as stated: on `cexProfile`
(prices 1…5, volumes 50/1/60/2/9) with target fraction `7/10`, the value
area returned is `[1, 5]` (index range 0…4) around the POC at price 3, but
removing the HIGH boundary bin (index 4, volume 9, not the POC bin) leaves
accumulated volume 113, still at least `7/10 × 122 = 85.4` — the range is
not tight. -/
theorem valueArea_not_tight_counterexample :
    calculateValueArea cexProfile (7 / 10) = some ⟨1, 5⟩ ∧
      calculatePOC cexProfile = some 3 ∧
      (cexProfile.getD 0 dfltPoint).price = 1 ∧
      (cexProfile.getD 4 dfltPoint).price = 5 ∧
      (cexProfile.getD 4 dfltPoint).price ≠ 3 ∧
      vaSumRange cexProfile 0 3 = 113 ∧
      (7 : ℚ) / 10 * ((cexProfile.map fun b => b.vol).sum) ≤ vaSumRange cexProfile 0 3 := by
  have hvmain : calculateValueArea cexProfile (7 / 10) = some ⟨1, 5⟩ := by
    show calculateValueArea
      [⟨1, 50, 0, 0⟩, ⟨2, 1, 0, 0⟩, ⟨3, 60, 0, 0⟩, ⟨4, 2, 0, 0⟩, ⟨5, 9, 0, 0⟩] (7 / 10)
      = some ⟨1, 5⟩
    have hv0 : vaVol [⟨1, 50, 0, 0⟩, ⟨2, 1, 0, 0⟩, ⟨3, 60, 0, 0⟩, ⟨4, 2, 0, 0⟩,
      ⟨5, 9, 0, 0⟩] 0 = 50 := by decide
    have hv1 : vaVol [⟨1, 50, 0, 0⟩, ⟨2, 1, 0, 0⟩, ⟨3, 60, 0, 0⟩, ⟨4, 2, 0, 0⟩,
      ⟨5, 9, 0, 0⟩] 1 = 1 := by decide
    have hv2 : vaVol [⟨1, 50, 0, 0⟩, ⟨2, 1, 0, 0⟩, ⟨3, 60, 0, 0⟩, ⟨4, 2, 0, 0⟩,
      ⟨5, 9, 0, 0⟩] 2 = 60 := by decide
    have hv3 : vaVol [⟨1, 50, 0, 0⟩, ⟨2, 1, 0, 0⟩, ⟨3, 60, 0, 0⟩, ⟨4, 2, 0, 0⟩,
      ⟨5, 9, 0, 0⟩] 3 = 2 := by decide
    have hv4 : vaVol [⟨1, 50, 0, 0⟩, ⟨2, 1, 0, 0⟩, ⟨3, 60, 0, 0⟩, ⟨4, 2, 0, 0⟩,
      ⟨5, 9, 0, 0⟩] 4 = 9 := by decide
    have hpoc : calculatePOC [⟨1, 50, 0, 0⟩, ⟨2, 1, 0, 0⟩, ⟨3, 60, 0, 0⟩,
      ⟨4, 2, 0, 0⟩, ⟨5, 9, 0, 0⟩] = some 3 := by decide
    have hfind : ([⟨1, 50, 0, 0⟩, ⟨2, 1, 0, 0⟩, ⟨3, 60, 0, 0⟩, ⟨4, 2, 0, 0⟩,
        ⟨5, 9, 0, 0⟩] : List VolumeProfileDataPoint).findIdx?
        (fun point => decide (point.price = 3)) = some 2 := by decide
    have it1 : vaLoop [⟨1, 50, 0, 0⟩, ⟨2, 1, 0, 0⟩, ⟨3, 60, 0, 0⟩, ⟨4, 2, 0, 0⟩, ⟨5, 9, 0, 0⟩]
        (427 / 5) 5 2 2 60 = vaLoop [⟨1, 50, 0, 0⟩, ⟨2, 1, 0, 0⟩, ⟨3, 60, 0, 0⟩,
        ⟨4, 2, 0, 0⟩, ⟨5, 9, 0, 0⟩] (427 / 5) 4 2 3 62 := by
      rw [show (5:ℕ) = 4 + 1 from rfl, vaLoop]
      norm_num [hv1, hv3]
    have it2 : vaLoop [⟨1, 50, 0, 0⟩, ⟨2, 1, 0, 0⟩, ⟨3, 60, 0, 0⟩, ⟨4, 2, 0, 0⟩, ⟨5, 9, 0, 0⟩]
        (427 / 5) 4 2 3 62 = vaLoop [⟨1, 50, 0, 0⟩, ⟨2, 1, 0, 0⟩, ⟨3, 60, 0, 0⟩,
        ⟨4, 2, 0, 0⟩, ⟨5, 9, 0, 0⟩] (427 / 5) 3 2 4 71 := by
      rw [show (4:ℕ) = 3 + 1 from rfl, vaLoop]
      norm_num [hv1, hv4]
    have it3 : vaLoop [⟨1, 50, 0, 0⟩, ⟨2, 1, 0, 0⟩, ⟨3, 60, 0, 0⟩, ⟨4, 2, 0, 0⟩, ⟨5, 9, 0, 0⟩]
        (427 / 5) 3 2 4 71 = vaLoop [⟨1, 50, 0, 0⟩, ⟨2, 1, 0, 0⟩, ⟨3, 60, 0, 0⟩,
        ⟨4, 2, 0, 0⟩, ⟨5, 9, 0, 0⟩] (427 / 5) 2 1 4 72 := by
      rw [show (3:ℕ) = 2 + 1 from rfl, vaLoop]
      norm_num [hv1]
    have it4 : vaLoop [⟨1, 50, 0, 0⟩, ⟨2, 1, 0, 0⟩, ⟨3, 60, 0, 0⟩, ⟨4, 2, 0, 0⟩, ⟨5, 9, 0, 0⟩]
        (427 / 5) 2 1 4 72 = vaLoop [⟨1, 50, 0, 0⟩, ⟨2, 1, 0, 0⟩, ⟨3, 60, 0, 0⟩,
        ⟨4, 2, 0, 0⟩, ⟨5, 9, 0, 0⟩] (427 / 5) 1 0 4 122 := by
      rw [show (2:ℕ) = 1 + 1 from rfl, vaLoop]
      norm_num [hv0]
    have it5 : vaLoop [⟨1, 50, 0, 0⟩, ⟨2, 1, 0, 0⟩, ⟨3, 60, 0, 0⟩, ⟨4, 2, 0, 0⟩, ⟨5, 9, 0, 0⟩]
        (427 / 5) 1 0 4 122 = (0, 4) := by
      rw [show (1:ℕ) = 0 + 1 from rfl, vaLoop]
      norm_num
    rw [calculateValueArea]
    dsimp only
    rw [hpoc]
    dsimp only
    rw [hfind]
    dsimp only
    rw [show (([⟨1, 50, 0, 0⟩, ⟨2, 1, 0, 0⟩, ⟨3, 60, 0, 0⟩, ⟨4, 2, 0, 0⟩, ⟨5, 9, 0, 0⟩] :
        List VolumeProfileDataPoint).map fun x => x.vol).sum * (7 / 10) = (427 / 5 : ℚ)
      from by norm_num]
    rw [show ([⟨1, 50, 0, 0⟩, ⟨2, 1, 0, 0⟩, ⟨3, 60, 0, 0⟩, ⟨4, 2, 0, 0⟩, ⟨5, 9, 0, 0⟩] :
        List VolumeProfileDataPoint).length = 5 from rfl]
    rw [hv2, it1, it2, it3, it4, it5]
    decide
  have hs0 : vaSumRange cexProfile 0 0 = 50 := by
    rw [vaSumRange_single]
    decide
  have hs1 : vaSumRange cexProfile 0 1 = 51 := by
    have h := vaSumRange_high_expand cexProfile 0 0 (by omega)
    rw [hs0, show vaVol cexProfile (0 + 1) = 1 from by decide] at h
    norm_num at h
    exact h
  have hs2 : vaSumRange cexProfile 0 2 = 111 := by
    have h := vaSumRange_high_expand cexProfile 0 1 (by omega)
    rw [hs1, show vaVol cexProfile (1 + 1) = 60 from by decide] at h
    norm_num at h
    exact h
  have hs3 : vaSumRange cexProfile 0 3 = 113 := by
    have h := vaSumRange_high_expand cexProfile 0 2 (by omega)
    rw [hs2, show vaVol cexProfile (2 + 1) = 2 from by decide] at h
    norm_num at h
    exact h
  have hsumall : ((cexProfile.map fun b => b.vol).sum) = 122 := by
    norm_num [cexProfile]
  refine ⟨hvmain, by decide, by decide, by decide, by decide, hs3, ?_⟩
  rw [hs3, hsumall]
  norm_num
